import Mathlib

/-!
Verification of `codegen/wgpu_native_patcher.py`.

The file shallowly embeds the data model and the three annotation passes
(`CommentRemover`, `FunctionPatcher`, `StructPatcher`) together with the
enum-mapping synthesis of `write_mappings`.  Documents are modelled as lists
of lines; the `Patcher` base class (from `codegen/utils.py`, not part of the
sources) is modelled from the spec's `MutableDocument` contract.
-/

namespace WgpuPatch

/-! ## Python-style string helpers

All operations are written as structural recursion over the character list
of a string, mirroring the Python string methods the source uses. -/

/-- Python `\w` word character (ASCII interpretation). -/
def isWordChar (c : Char) : Bool := c.isAlphanum || c = '_'

/-- The whitespace characters of Python `str.strip()` (ASCII). -/
def isPySpace (c : Char) : Bool :=
  c = ' ' || c = '\t' || c = '\n' || c = '\r' || c = '\x0b' || c = '\x0c'

/-- Python `s.lstrip()`. -/
def pyLStrip (s : String) : String := String.mk (s.data.dropWhile isPySpace)

/-- Python `s.strip()`. -/
def pyStrip (s : String) : String :=
  String.mk (((s.data.dropWhile isPySpace).reverse.dropWhile isPySpace).reverse)

/-- Python `s.startswith(pre)`. -/
def pyStartsWith (s pre : String) : Bool := pre.data.isPrefixOf s.data

/-- Python `s.endswith(suf)`. -/
def pyEndsWith (s suf : String) : Bool := suf.data.isSuffixOf s.data

/-- ASCII lower-casing of one character. -/
def pyLowerChar (c : Char) : Char :=
  if 'A' ≤ c && c ≤ 'Z' then Char.ofNat (c.toNat + 32) else c

/-- Python `s.lower()` (ASCII). -/
def pyLower (s : String) : String := String.mk (s.data.map pyLowerChar)

/-- `s.replace(old, new)` worker, fuelled to stay structural; the source
only replaces non-empty substrings. -/
def pyReplaceAux (old new : List Char) : Nat → List Char → List Char
  | 0, l => l
  | _ + 1, [] => []
  | fuel + 1, c :: rest =>
    if old.isPrefixOf (c :: rest) then
      new ++ pyReplaceAux old new fuel ((c :: rest).drop old.length)
    else c :: pyReplaceAux old new fuel rest

/-- Python `s.replace(old, new)`. -/
def pyReplace (s old new : String) : String :=
  String.mk (pyReplaceAux old.data new.data s.data.length s.data)

/-- Everything before the first occurrence of `sep`:
Python `s.split(sep)[0]`. -/
def takeUntilSub (sep : List Char) : List Char → List Char
  | [] => []
  | c :: rest =>
    if sep.isPrefixOf (c :: rest) then [] else c :: takeUntilSub sep rest

/-- Everything after the first occurrence of `sep`, when present. -/
def afterFirstSub (sep : List Char) : List Char → Option (List Char)
  | [] => if sep.isEmpty then some [] else none
  | c :: rest =>
    if sep.isPrefixOf (c :: rest) then some ((c :: rest).drop sep.length)
    else afterFirstSub sep rest

/-- Python `s.split(sep)[0]`. -/
def headSplit (s sep : String) : String := String.mk (takeUntilSub sep.data s.data)

/-- Python `s.split(sep)[1]` (used only where the separator is present;
an absent separator, which Python would fault on, yields `""`). -/
def secondSplit (s sep : String) : String :=
  match afterFirstSub sep.data s.data with
  | some r => String.mk (takeUntilSub sep.data r)
  | none => ""

/-- Python `sep.join(parts)`. -/
def joinSep (sep : String) : List String → String
  | [] => ""
  | [x] => x
  | x :: rest => x ++ sep ++ joinSep sep rest

/-- Drop a literal prefix from a character list; `none` if it does not start
with that prefix. -/
def dropPre : List Char → List Char → Option (List Char)
  | [], l => some l
  | _ :: _, [] => none
  | p :: ps, c :: cs => if c = p then dropPre ps cs else none

/-- First index (if any) at which `needle` occurs as a contiguous sublist of
`hay`, counting from `k`. -/
def findSubAux (needle : List Char) : List Char → Nat → Option Nat
  | [], k => if needle.isEmpty then some k else none
  | hay@(_ :: t), k =>
    if needle.isPrefixOf hay then some k else findSubAux needle t (k + 1)

/-- Python `s.index(sub)` / `sub in s`, on strings. -/
def strFindSub (s sub : String) : Option Nat := findSubAux sub.data s.data 0

/-- Python `sub in s`. -/
def strContainsSub (s sub : String) : Bool := (strFindSub s sub).isSome

/-- Python `" " * (len(line) - len(line.lstrip()))`: the leading whitespace
of `line`, re-rendered as that many spaces. -/
def indentOf (line : String) : String :=
  String.mk (List.replicate (line.data.takeWhile isPySpace).length ' ')

/-- Python `s.strip(chars)`: remove any of `cs` from both ends. -/
def stripChars (s : String) (cs : List Char) : String :=
  String.mk (((s.data.dropWhile (cs.contains ·)).reverse.dropWhile
    (cs.contains ·)).reverse)

/-- Python `s.strip(";")`. -/
def stripSemis (s : String) : String := stripChars s [';']

/-! ## Schemas

`NativeSchema` models the parsed `wgpu.h` inventory (`hp` in the source):
functions map to their declared signature text, structs to an ordered
field-name/field-type association, enums to ordered member/value pairs.
Python dicts are modelled as ordered association lists. -/

structure NativeSchema where
  functions : List (String × String)
  structs : List (String × List (String × String))
  enums : List (String × List (String × Int))

/-- Interface (IDL) enums: enum name to ordered (member key, member string
value) pairs; the source only reads the values. -/
abbrev IdlEnums : Type := List (String × List (String × String))

/-! ## Ordered-dictionary helpers (Python `dict` / `defaultdict(list)`) -/

/-- `m[k] = v` on an insertion-ordered dict: overwrite in place, else append. -/
def odUpdate : List (String × α) → String → α → List (String × α)
  | [], k, v => [(k, v)]
  | (k', v') :: t, k, v =>
    if k' = k then (k, v) :: t else (k', v') :: odUpdate t k v

/-- `m[k].append(v)` on a `defaultdict(list)`. -/
def odAppend : List (String × List α) → String → α → List (String × List α)
  | [], k, v => [(k, [v])]
  | (k', vs) :: t, k, v =>
    if k' = k then (k, vs ++ [v]) :: t else (k', vs) :: odAppend t k v

/-- `m.pop(k, default)`: the removed value (if present) and the remaining dict. -/
def odPop : List (String × α) → String → Option α × List (String × α)
  | [], _ => (none, [])
  | (k', v') :: t, k =>
    if k' = k then (some v', t)
    else
      let r := odPop t k
      (r.1, (k', v') :: r.2)

/-! ## MutableDocument (the `Patcher` contract)

Modelled from the spec: `codegen/utils.py` (the `Patcher` base class) is not
among the sources; §4.2 of the spec specifies it.  A pass scans the original
line sequence and schedules edits keyed by original indices; `insert`
schedules lines to appear immediately before the original line (multiple
inserts at one index keep schedule order), `replace` overwrites a line,
`remove` drops it.  An insert of text containing newlines is modelled as the
corresponding list of lines. -/

inductive Edit where
  | insert (i : Nat) (ls : List String)
  | replace (i : Nat) (s : String)
  | remove (i : Nat)
deriving DecidableEq, Repr

def editIndex : Edit → Nat
  | .insert i _ => i
  | .replace i _ => i
  | .remove i => i

/-- All lines scheduled to appear immediately before original line `i`,
in schedule order. -/
def insertsAt (edits : List Edit) (i : Nat) : List String :=
  edits.flatMap fun e =>
    match e with
    | .insert j ls => if j = i then ls else []
    | _ => []

/-- The final content of original line `i` (last scheduled replace wins). -/
def replaceAt (edits : List Edit) (i : Nat) (orig : String) : String :=
  edits.foldl (fun cur e =>
    match e with
    | .replace j s => if j = i then s else cur
    | _ => cur) orig

/-- Whether original line `i` was removed. -/
def removedAt (edits : List Edit) (i : Nat) : Bool :=
  edits.any fun e =>
    match e with
    | .remove j => j = i
    | _ => false

/-- Modelled from the spec: `materialize()` applies all scheduled edits in
original-index order. -/
def applyEdits (lines : List String) (edits : List Edit) : List String :=
  lines.enum.flatMap fun p =>
    insertsAt edits p.1 ++
      (if removedAt edits p.1 then [] else [replaceAt edits p.1 p.2])

/-! ## Enum mapping synthesis (`write_mappings`) -/

namespace WriteMappings

/-- `name_map = {}` in `write_mappings`. -/
def name_map : List (String × String) := []

/-- `name_map.get(name, name)`. -/
def resolveEnumName (name : String) : String :=
  (List.lookup name name_map).getD name

/-- `hp_enum = {key.lower(): val for key, val in hp.enums[hname].items()}`
(later keys overwrite earlier ones, as in a Python dict comprehension). -/
def lowerKeys (m : List (String × Int)) : List (String × Int) :=
  m.foldl (fun acc kv => odUpdate acc (pyLower kv.1) kv.2) []

/-- `hkey = ikey.lower().replace("-", "")`. -/
def normMember (ikey : String) : String := pyReplace (pyLower ikey) "-" ""

/-- `name_map.get(f"{name}.{hkey}") or hkey` (Python `or`: an absent or
empty override falls back to `hkey`). -/
def overrideMember (name hkey : String) : String :=
  match List.lookup (name ++ "." ++ hkey) name_map with
  | some s => if s = "" then hkey else s
  | none => hkey

/-- One iteration of the inner member loop of the enummap construction. -/
def memberStep (name : String) (hpEnum : List (String × Int))
    (acc2 : List (String × Int) × List String) (kv : String × String) :
    List (String × Int) × List String :=
  let ikey := kv.2
  let hkey := overrideMember name (normMember ikey)
  match List.lookup hkey hpEnum with
  | some v => (odUpdate acc2.1 (name ++ "." ++ ikey) v, acc2.2)
  | none =>
    (acc2.1, acc2.2 ++
      ["Enum field " ++ name ++ "." ++ ikey ++ " missing in wgpu.h"])

/-- One iteration of the outer enum loop of the enummap construction. -/
def enumStep (hp : NativeSchema) (acc : List (String × Int) × List String)
    (nameEnum : String × List (String × String)) :
    List (String × Int) × List String :=
  let name := nameEnum.1
  let hname := resolveEnumName name
  match List.lookup hname hp.enums with
  | none => (acc.1, acc.2 ++ ["Enum " ++ hname ++ " missing in wgpu.h"])
  | some hpMembers =>
    nameEnum.2.foldl (memberStep name (lowerKeys hpMembers)) acc

/-- The enummap construction loop of `write_mappings`: the resulting
insertion-ordered dict and the printed diagnostics. -/
def enummap (idl : IdlEnums) (hp : NativeSchema) :
    List (String × Int) × List String :=
  idl.foldl (enumStep hp) ([], [])

/-- The `(key, value)` write sequence the member loop performs on the
enummap dict, for one enum. -/
def memberWrites (name : String) (hpEnum : List (String × Int))
    (ms : List (String × String)) : List (String × Int) :=
  ms.filterMap fun kv =>
    (List.lookup (overrideMember name (normMember kv.2)) hpEnum).map
      fun v => (name ++ "." ++ kv.2, v)

/-- The missing-field diagnostics the member loop prints, for one enum. -/
def memberDiags (name : String) (hpEnum : List (String × Int))
    (ms : List (String × String)) : List String :=
  ms.filterMap fun kv =>
    match List.lookup (overrideMember name (normMember kv.2)) hpEnum with
    | some _ => none
    | none =>
      some ("Enum field " ++ name ++ "." ++ kv.2 ++ " missing in wgpu.h")

/-- The full write sequence on the enummap dict, over all enums. -/
def enumWrites (idl : IdlEnums) (hp : NativeSchema) : List (String × Int) :=
  idl.flatMap fun ne =>
    match List.lookup (resolveEnumName ne.1) hp.enums with
    | none => []
    | some hpMembers => memberWrites ne.1 (lowerKeys hpMembers) ne.2

/-- All diagnostics the enummap construction prints, in order. -/
def enumDiags (idl : IdlEnums) (hp : NativeSchema) : List String :=
  idl.flatMap fun ne =>
    match List.lookup (resolveEnumName ne.1) hp.enums with
    | none => ["Enum " ++ resolveEnumName ne.1 ++ " missing in wgpu.h"]
    | some hpMembers => memberDiags ne.1 (lowerKeys hpMembers) ne.2

end WriteMappings

/-! ## Regex recognizers of the call-site pass

`re.search` is embedded as a leftmost scan with the concrete patterns of the
source resolved by hand (greedy `\w*` runs are maximal, with the
backtracking the literal tails force). -/

/-- `libf?\.` at the current position (greedy optional `f`). -/
def afterLibDot : List Char → Option (List Char)
  | 'f' :: '.' :: r => some r
  | '.' :: r => some r
  | _ => none

/-- `libf?\.(wgpu\w*)\(` anchored at the current position; returns the
captured function name. -/
def tryDirectAt (l : List Char) : Option String :=
  match dropPre "lib".data l with
  | none => none
  | some r =>
    match afterLibDot r with
    | none => none
    | some r2 =>
      match dropPre "wgpu".data r2 with
      | none => none
      | some r3 =>
        let run := r3.takeWhile isWordChar
        let rest := r3.drop run.length
        if rest.head? = some '(' then some (String.mk ("wgpu".data ++ run))
        else none

/-- Longest prefix of a word-character run that has shape `_\w+_function`
(the greedy group of the indirect-use pattern). -/
def lastFunctionPrefix (run : List Char) : Option (List Char) :=
  (List.range (run.length + 1)).reverse.findSome? fun k =>
    if 11 ≤ k && "_function".data.isSuffixOf (run.take k) then some (run.take k)
    else none

/-- `(_\w+_function) = libf?\.(wgpu\w*)` anchored at the current position;
returns (class-field name, native symbol name).  The group must cover a whole
word run (a space follows it in the pattern). -/
def tryAssignAt (l : List Char) : Option (String × String) :=
  match l with
  | '_' :: _ =>
    let run := l.takeWhile isWordChar
    let rest := l.drop run.length
    if 11 ≤ run.length && "_function".data.isSuffixOf run then
      match dropPre " = lib".data rest with
      | none => none
      | some r =>
        match afterLibDot r with
        | none => none
        | some r2 =>
          match dropPre "wgpu".data r2 with
          | none => none
          | some r3 =>
            some (String.mk run,
              String.mk ("wgpu".data ++ r3.takeWhile isWordChar))
    else none
  | _ => none

/-- `type\(self\).(_\w+_function)` anchored at the current position (the
unescaped `.` matches any character); returns the class-field name. -/
def tryUseAt (l : List Char) : Option String :=
  match dropPre "type(self)".data l with
  | none => none
  | some [] => none
  | some (_ :: r) =>
    match r with
    | '_' :: _ => (lastFunctionPrefix (r.takeWhile isWordChar)).map String.mk
    | _ => none

/-- Leftmost-match search, as `re.search`. -/
def searchAux {α : Type} (f : List Char → Option α) : List Char → Option α
  | [] => f []
  | l@(_ :: t) =>
    match f l with
    | some a => some a
    | none => searchAux f t

def matchDirectCall (line : String) : Option String :=
  searchAux tryDirectAt line.data

def matchAssign (line : String) : Option (String × String) :=
  searchAux tryAssignAt line.data

def matchUse (line : String) : Option String :=
  searchAux tryUseAt line.data

/-- The `if / elif / elif` chain of `FunctionPatcher.apply`, as a tagged
classification of one line. -/
inductive FpMatch where
  | direct (v : String)
  | assign (name lib : String)
  | use (name : String)
  | nomatch
deriving DecidableEq, Repr

def fpClassify (line : String) : FpMatch :=
  match matchDirectCall line with
  | some v => .direct v
  | none =>
    match matchAssign line with
    | some (n, l) => .assign n l
    | none =>
      match matchUse line with
      | some n => .use n
      | none => .nomatch

/-! ## Cleanup pass (`CommentRemover`) -/

namespace CommentRemover

def triggers : List String := ["# FIXME: unknown C", "# FIXME: invalid C", "# H:"]

/-- `line.lstrip().startswith(self.triggers)`. -/
def isTrigger (line : String) : Bool :=
  triggers.any fun t => pyStartsWith (pyLStrip line) t

/-- The edits scheduled by `CommentRemover.apply`. -/
def edits (lines : List String) : List Edit :=
  lines.enum.filterMap fun p =>
    if isTrigger p.2 then some (.remove p.1) else none

/-- The whole pass: scan, schedule removals, materialize. -/
def run (lines : List String) : List String :=
  applyEdits lines (edits lines)

end CommentRemover

/-! ## Call-site pass (`FunctionPatcher`) -/

namespace FunctionPatcher

/-- Scan state of `FunctionPatcher.apply`: scheduled edits, report-stream
diagnostics, the validated-call counter, the `detected` set, and the def/use
tables (`generic_class_var_assignment`, `generic_class_var_use`). -/
structure State where
  edits : List Edit
  diags : List String
  count : Nat
  detected : List String
  assigns : List (String × List String)
  uses : List (String × String × Nat)
deriving Repr

def initState : State :=
  { edits := [], diags := [], count := 0, detected := [], assigns := [],
    uses := [] }

/-- Python `set.add`. -/
def insertSet (s : List String) (v : String) : List String :=
  if s.contains v then s else s ++ [v]

/-- `hp.functions[var_name].replace(var_name, "f").strip(";")`. -/
def anno (sig v : String) : String := stripSemis (pyReplace sig v "f")

/-- The edits scheduled while scanning one line (they depend only on the
line, its index and the schema). -/
def lineEdits (hp : NativeSchema) (line : String) (i : Nat) : List Edit :=
  match fpClassify line with
  | .direct v =>
    (if strContainsSub line "lib.wgpu" then
      [.insert i [indentOf line ++ "# FIXME: wgpu func calls must be done from libf"]]
     else []) ++
    (match List.lookup v hp.functions with
     | none => [.insert i [indentOf line ++ "# FIXME: unknown C function " ++ v]]
     | some sig => [.insert i [indentOf line ++ "# H: " ++ anno sig v]])
  | .assign _ lib =>
    match List.lookup lib hp.functions with
    | none => [.insert i [indentOf line ++ "# FIXME: unknown C function " ++ lib]]
    | some _ => []
  | _ => []

/-- The diagnostics printed while scanning one line. -/
def lineDiags (hp : NativeSchema) (line : String) : List String :=
  match fpClassify line with
  | .direct v =>
    (match List.lookup v hp.functions with
     | none => ["ERROR: unknown C function " ++ v]
     | some _ => [])
  | .assign _ lib =>
    (match List.lookup lib hp.functions with
     | none => ["ERROR: unknown C function " ++ lib]
     | some _ => [])
  | _ => []

/-- The increment of the validated-call counter contributed by one scanned
line. -/
def lineCount (hp : NativeSchema) (line : String) : Nat :=
  match fpClassify line with
  | .direct v => if (List.lookup v hp.functions).isSome then 1 else 0
  | _ => 0

/-- One iteration of the scan loop of `FunctionPatcher.apply`. -/
def step (hp : NativeSchema) (st : State) (p : Nat × String) : State :=
  let i := p.1
  let line := p.2
  { edits := st.edits ++ lineEdits hp line i
    diags := st.diags ++ lineDiags hp line
    count := st.count + lineCount hp line
    detected :=
      match fpClassify line with
      | .direct v =>
        if (List.lookup v hp.functions).isSome then insertSet st.detected v
        else st.detected
      | _ => st.detected
    assigns :=
      match fpClassify line with
      | .assign n lib =>
        if (List.lookup lib hp.functions).isSome then odAppend st.assigns n lib
        else st.assigns
      | _ => st.assigns
    uses :=
      match fpClassify line with
      | .use n => odUpdate st.uses n (line, i)
      | _ => st.uses }

/-- The scan loop over all lines. -/
def scan (hp : NativeSchema) (lines : List String) : State :=
  lines.enum.foldl (step hp) initState

/-- Edits scheduled for one entry of `generic_class_var_use` after the scan,
when the assignments recorded for it are `libNames`. -/
def useEdits (hp : NativeSchema) (name line : String) (i : Nat)
    (libNames : List String) : List Edit :=
  if libNames.isEmpty then
    [.insert i [indentOf line ++
      "# FIXME: There are no assignments to class field " ++ name]]
  else
    libNames.map fun ln =>
      .insert i [indentOf line ++ "# H: " ++
        stripSemis ((List.lookup ln hp.functions).getD "")]

def useDiags (name : String) (libNames : List String) : List String :=
  if libNames.isEmpty then
    ["ERROR: There are no assignments to class field " ++ name]
  else []

/-- The loop over `generic_class_var_use.items()`, popping each field from
`generic_class_var_assignment`. -/
def finishLoop (hp : NativeSchema) : State → List (String × String × Nat) → State
  | st, [] => st
  | st, (name, line, i) :: rest =>
    let r := odPop st.assigns name
    let libNames := (r.1).getD []
    finishLoop hp
      { edits := st.edits ++ useEdits hp name line i libNames
        diags := st.diags ++ useDiags name libNames
        count := st.count + libNames.length
        detected := libNames.foldl insertSet st.detected
        assigns := r.2
        uses := st.uses } rest

/-- The fixed ignore-list of the final "not using" report. -/
def ignorePrefixes : List String :=
  ["wgpu_create_surface_from", "wgpu_set_log_level", "wgpu_get_version",
   "wgpu_set_log_callback"]

def notUsingMsg (hp : NativeSchema) (detected : List String) : String :=
  let unused := ((hp.functions.map Prod.fst).eraseDups.filter fun n =>
    !(ignorePrefixes.any fun pre => pyStartsWith n pre) && !(detected.contains n))
  "Not using " ++ toString unused.length ++ " C functions"

/-- Everything after the scan loop: use-site annotation, leftover-assignment
diagnostics, and the final report lines. -/
def finish (hp : NativeSchema) (st : State) : State :=
  let st1 := finishLoop hp st st.uses
  let st2 := { st1 with
    diags := st1.diags ++ st1.assigns.map fun (p : String × List String) =>
      "ERROR: " ++ p.1 ++ " assigned a value but it is never used" }
  { st2 with
    diags := st2.diags ++
      ["Validated " ++ toString st2.count ++ " C function calls"] ++
      [notUsingMsg hp st2.detected] }

/-- The `(name, (line, index))` write sequence the scan performs on
`generic_class_var_use`. -/
def usesWrites (ps : List (Nat × String)) : List (String × String × Nat) :=
  ps.filterMap fun p =>
    match fpClassify p.2 with
    | .use n => some (n, p.2, p.1)
    | _ => none

/-- The `(name, symbol)` append sequence the scan performs on
`generic_class_var_assignment`. -/
def assignsWrites (hp : NativeSchema) (ps : List (Nat × String)) :
    List (String × String) :=
  ps.filterMap fun p =>
    match fpClassify p.2 with
    | .assign n lib =>
      if (List.lookup lib hp.functions).isSome then some (n, lib) else none
    | _ => none

/-- `FunctionPatcher.apply` in full. -/
def run (hp : NativeSchema) (lines : List String) : State :=
  finish hp (scan hp lines)

/-- The pass output after `dumps`. -/
def output (hp : NativeSchema) (lines : List String) : List String :=
  applyEdits lines (run hp lines).edits

end FunctionPatcher

/-! ## Struct-literal pass (`StructPatcher`) -/

namespace StructPatcher

/-- Python `line.rindex(")")`: index of the last closing parenthesis. -/
def rindexParen (s : String) : Option Nat :=
  let k := (s.data.reverse.takeWhile (· ≠ ')')).length
  if k = s.data.length then none else some (s.data.length - 1 - k)

/-- Insert a `","` before position `k` of `line` (the single-line
fast-path reformatting). -/
def insertCommaAt (line : String) (k : Nat) : String :=
  String.mk (line.data.take k ++ [','] ++ line.data.drop k)

/-- The field key read from one interior line of a struct literal:
`line.split("=")[0].strip()`, with a pre-existing `# not used:` marker
unwrapped; `none` when the line is a skipped comment. -/
def parseKey (line : String) : Option String :=
  let key := pyStrip (headSplit line "=")
  if pyStartsWith key "# not used:" then
    some (pyStrip (headSplit (secondSplit key ":") "="))
  else if pyStartsWith key "#" then none
  else some key

/-- Keys collected from the interior lines of a span (`keys_found`). -/
def spanKeys (lines : List String) : List String :=
  ((List.range' 2 (lines.length - 3)).map fun j => (lines.getD j "")).filterMap
    parseKey

/-- `lines = self.lines[i1 : i2 + 1]` at the start of `_validate_struct`. -/
def spanLines (origLines : List String) (i1 i2 : Nat) : List String :=
  (origLines.drop i1).take (i2 + 1 - i1)

/-- `indent` in `_validate_struct`: the indentation of the closing line. -/
def vsIndent (origLines : List String) (i1 i2 : Nat) : String :=
  indentOf ((spanLines origLines i1 i2).getLastD "")

/-- `name = lines[1].strip().strip(',\x22')` in `_validate_struct`. -/
def vsName (origLines : List String) (i1 i2 : Nat) : String :=
  stripChars (pyStrip ((spanLines origLines i1 i2).getD 1 "")) [',', '"']

/-- `struct_name = name.strip(" *")` in `_validate_struct`. -/
def vsStructName (origLines : List String) (i1 i2 : Nat) : String :=
  stripChars (vsName origLines i1 i2) [' ', '*']

/-- The pointer-usage fix-me the validator schedules against the opening
line when the literal kind does not match the declared name. -/
def vsPtrEdits (origLines : List String) (i1 i2 : Nat) : List Edit :=
  if pyEndsWith (vsName origLines i1 i2) "*" then
    (if strContainsSub ((spanLines origLines i1 i2).getD 0 "") "new_struct_p" then []
     else [Edit.insert i1 [vsIndent origLines i1 i2 ++
       "# FIXME: invalid C struct, use new_struct_p()"]])
  else
    (if strContainsSub ((spanLines origLines i1 i2).getD 0 "") "new_struct_p" then
      [Edit.insert i1 [vsIndent origLines i1 i2 ++
        "# FIXME: invalid C struct, use new_struct()"]]
     else [])

/-- The field-listing comment (`# H: ...`) for a known struct. -/
def vsHLine (origLines : List String) (i1 i2 : Nat)
    (fields : List (String × String)) : String :=
  vsIndent origLines i1 i2 ++ "# H: " ++
    joinSep ", " (fields.map fun f => f.1 ++ ": " ++ f.2)

/-- The fix-me edits the validator schedules against one interior line. -/
def vsKeyEditAt (origLines : List String) (i1 i2 : Nat)
    (fields : List (String × String)) (j : Nat) : List Edit :=
  match parseKey ((spanLines origLines i1 i2).getD j "") with
  | none => []
  | some key =>
    if (List.lookup key fields).isSome then []
    else [Edit.insert (i1 + j)
      [vsIndent origLines i1 i2 ++ "# FIXME: unknown C struct field " ++
        vsStructName origLines i1 i2 ++ "." ++ key]]

/-- The fix-me edits over all interior lines of a span. -/
def vsKeyEdits (origLines : List String) (i1 i2 : Nat)
    (fields : List (String × String)) : List Edit :=
  (List.range' 2 ((spanLines origLines i1 i2).length - 3)).flatMap
    (vsKeyEditAt origLines i1 i2 fields)

/-- The per-key error diagnostics over all interior lines of a span. -/
def vsKeyDiags (origLines : List String) (i1 i2 : Nat)
    (fields : List (String × String)) : List String :=
  (List.range' 2 ((spanLines origLines i1 i2).length - 3)).flatMap fun j =>
    match parseKey ((spanLines origLines i1 i2).getD j "") with
    | none => []
    | some key =>
      if (List.lookup key fields).isSome then []
      else ["ERROR: unknown C struct field " ++
        vsStructName origLines i1 i2 ++ "." ++ key]

/-- The `# not used:` comment lines for declared fields never referenced
by an interior line of the span. -/
def vsNotUsed (origLines : List String) (i1 i2 : Nat)
    (fields : List (String × String)) : List String :=
  fields.filterMap fun f =>
    if (spanKeys (spanLines origLines i1 i2)).contains f.1 then none
    else some (vsIndent origLines i1 i2 ++ "    # not used: " ++ f.1)

/-- The scheduled insert of the `# not used:` lines, just before the
closing line of the span. -/
def vsNotUsedEdits (origLines : List String) (i1 i2 : Nat)
    (fields : List (String × String)) : List Edit :=
  if (vsNotUsed origLines i1 i2 fields).isEmpty then []
  else [Edit.insert i2 (vsNotUsed origLines i1 i2 fields)]

/-- `StructPatcher._validate_struct`, returning the scheduled edits and the
printed diagnostics; `none` models the failing `assert len(lines) >= 3`. -/
def validate_struct (hp : NativeSchema) (origLines : List String)
    (i1 i2 : Nat) : Option (List Edit × List String) :=
  let lines := spanLines origLines i1 i2
  if lines.length = 1 then
    -- single line: insert a comma before the last closing paren
    let line := lines.headD ""
    match rindexParen line with
    | some k =>
      some ([.replace i1 (insertCommaAt line k)],
        ["Notice: made a struct multiline. Rerun codegen to validate the struct."])
    | none => some ([], [])  -- unreachable: the span closed on this line
  else if lines.length = 3 && (lines.getD 1 "").data.contains '=' then
    -- triplet: append a comma to the middle line
    some ([.replace (i1 + 1) ((origLines.getD (i1 + 1) "") ++ ",")],
      ["Notice: made a struct multiline. Rerun codegen to validate the struct."])
  else if lines.length < 3 then
    none  -- assert len(lines) >= 3
  else
    match List.lookup (vsStructName origLines i1 i2) hp.structs with
    | none =>
      some (vsPtrEdits origLines i1 i2 ++
        [.insert i1 [vsIndent origLines i1 i2 ++ "# FIXME: unknown C struct " ++
          vsStructName origLines i1 i2]],
        ["ERROR: unknown C struct " ++ vsStructName origLines i1 i2])
    | some struct =>
      some (vsPtrEdits origLines i1 i2 ++
        [.insert i1 [vsHLine origLines i1 i2 struct]] ++
        vsKeyEdits origLines i1 i2 struct ++
        vsNotUsedEdits origLines i1 i2 struct,
        vsKeyDiags origLines i1 i2 struct)

/-- Scan state of `StructPatcher.apply`: `line_index = -1` means no literal
is currently being tracked. -/
structure State where
  edits : List Edit
  diags : List String
  count : Nat
  lineIndex : Int
  braceDepth : Int
deriving Repr

def initState : State :=
  { edits := [], diags := [], count := 0, lineIndex := -1, braceDepth := 0 }

/-- The brace-counting loop over the characters of one line; `none` models
the failing `assert brace_depth >= 0` (and a failed inner assert of
`_validate_struct`). -/
def charLoop (hp : NativeSchema) (origLines : List String) (i : Nat) :
    State → List Char → Option State
  | st, [] => some st
  | st, c :: rest =>
    if c = '#' then some st
    else if c = '(' then
      charLoop hp origLines i { st with braceDepth := st.braceDepth + 1 } rest
    else if c = ')' then
      let d := st.braceDepth - 1
      if d < 0 then none
      else if d = 0 then
        match validate_struct hp origLines st.lineIndex.toNat i with
        | none => none
        | some r =>
          some { st with
            edits := st.edits ++ r.1
            diags := st.diags ++ r.2
            count := st.count + 1
            lineIndex := -1
            braceDepth := d }
      else charLoop hp origLines i { st with braceDepth := d } rest
    else charLoop hp origLines i st rest

/-- One iteration of the line loop of `StructPatcher.apply`. -/
def step (hp : NativeSchema) (origLines : List String)
    (stO : Option State) (p : Nat × String) : Option State :=
  match stO with
  | none => none
  | some st =>
    let i := p.1
    let line := p.2
    if strContainsSub line "new_struct_p(" || strContainsSub line "new_struct(" then
      if pyStartsWith (pyLStrip line) "def " then some st
      else if strContainsSub line "_new_struct" then some st
      else if strContainsSub line "new_struct_p()" || strContainsSub line "new_struct()" then
        some st
      else
        match strFindSub line "new_struct" with
        | some j =>
          charLoop hp origLines i
            { st with lineIndex := Int.ofNat i, braceDepth := 0 }
            (line.data.drop j)
        | none => some st  -- unreachable: guarded by the substring test
    else if 0 ≤ st.lineIndex then
      charLoop hp origLines i st line.data
    else some st

/-- The scan loop of `StructPatcher.apply`. -/
def scan (hp : NativeSchema) (lines : List String) : Option State :=
  lines.enum.foldl (step hp lines) (some initState)

/-- The two fatal events of the span scan: a closing parenthesis that
would drive the brace depth below zero (`assert brace_depth >= 0`), and a
span the validator rejects (`assert len(lines) >= 3`). -/
inductive ScanEvent where
  | negDepth
  | badSpan
deriving Repr, DecidableEq

/-- Instrumented copy of `charLoop` that records the first fatal event
instead of aborting. -/
def charLoopT (hp : NativeSchema) (origLines : List String) (i : Nat) :
    State → List Char → State × Option ScanEvent
  | st, [] => (st, none)
  | st, c :: rest =>
    if c = '#' then (st, none)
    else if c = '(' then
      charLoopT hp origLines i { st with braceDepth := st.braceDepth + 1 } rest
    else if c = ')' then
      let d := st.braceDepth - 1
      if d < 0 then (st, some .negDepth)
      else if d = 0 then
        match validate_struct hp origLines st.lineIndex.toNat i with
        | none => (st, some .badSpan)
        | some r =>
          ({ st with
            edits := st.edits ++ r.1
            diags := st.diags ++ r.2
            count := st.count + 1
            lineIndex := -1
            braceDepth := d }, none)
      else charLoopT hp origLines i { st with braceDepth := d } rest
    else charLoopT hp origLines i st rest

/-- Instrumented copy of `step`; once an event occurred it is sticky. -/
def stepT (hp : NativeSchema) (origLines : List String)
    (x : State × Option ScanEvent) (p : Nat × String) :
    State × Option ScanEvent :=
  match x.2 with
  | some ev => (x.1, some ev)
  | none =>
    let st := x.1
    let i := p.1
    let line := p.2
    if strContainsSub line "new_struct_p(" || strContainsSub line "new_struct(" then
      if pyStartsWith (pyLStrip line) "def " then (st, none)
      else if strContainsSub line "_new_struct" then (st, none)
      else if strContainsSub line "new_struct_p()" || strContainsSub line "new_struct()" then
        (st, none)
      else
        match strFindSub line "new_struct" with
        | some j =>
          charLoopT hp origLines i
            { st with lineIndex := Int.ofNat i, braceDepth := 0 }
            (line.data.drop j)
        | none => (st, none)
    else if 0 ≤ st.lineIndex then
      charLoopT hp origLines i st line.data
    else (st, none)

/-- Instrumented copy of the scan loop, recording the first fatal event. -/
def scanT (hp : NativeSchema) (lines : List String) :
    State × Option ScanEvent :=
  lines.enum.foldl (stepT hp lines) (initState, none)

/-- `StructPatcher.apply` in full (with its final report line). -/
def run (hp : NativeSchema) (lines : List String) : Option State :=
  (scan hp lines).map fun st =>
    { st with diags := st.diags ++ ["Validated " ++ toString st.count ++ " C structs"] }

/-- The pass output after `dumps`. -/
def output (hp : NativeSchema) (lines : List String) : Option (List String) :=
  (run hp lines).map fun st => applyEdits lines st.edits

end StructPatcher

/-! ### Concrete scenario: `WGPUColor` (spec §8) -/

/-- A native schema declaring struct `WGPUColor` with fields
`r, g, b, a`, all `float`. -/
def hpColor : NativeSchema :=
  { functions := [], structs :=
      [("WGPUColor", [("r", "float"), ("g", "float"), ("b", "float"),
        ("a", "float")])],
    enums := [] }

/-- A struct literal spanning exactly 3 lines that assigns only `r` and `g`. -/
def colorLiteral3 : List String :=
  ["c = new_struct_p(",
   "    \"WGPUColor *\", r=0.5, g=0.5",
   ")"]

/-- The same literal block-formatted (one field per line, 5 lines). -/
def colorLiteral5 : List String :=
  ["c = new_struct_p(",
   "    \"WGPUColor *\",",
   "    r=0.5,",
   "    g=0.5,",
   ")"]

/-- An interface enum with two resolvable members and one member missing
from the native enum. -/
def idlPower : IdlEnums :=
  [("PowerPreference",
    [("low-power", "low-power"), ("high-performance", "high-performance"),
     ("mystery", "mystery")])]

/-- A native schema declaring the `PowerPreference` enum. -/
def hpPower : NativeSchema :=
  { functions := [], structs := [],
    enums := [("PowerPreference",
      [("Undefined", 0), ("LowPower", 1), ("HighPerformance", 2)])] }

/-- A four-line struct literal whose type name is missing from the
native struct table. -/
def fooLiteral4 : List String :=
  ["y = new_struct_p(",
   "    \"WGPUFoo *\",",
   "    x=1,",
   ")"]

def isFixmeLine (l : String) : Bool := pyStartsWith (pyLStrip l) "# FIXME"

def isHLine (l : String) : Bool := pyStartsWith (pyLStrip l) "# H:"

def isNotUsedLine (l : String) : Bool := pyStartsWith (pyLStrip l) "# not used:"

/-! ### Basic facts about the cleanup pass -/

theorem commentRemover_edits_are_removes (lines : List String) :
    ∀ e ∈ CommentRemover.edits lines, ∃ i, e = Edit.remove i := by
  intro e he
  rcases List.mem_filterMap.1 he with ⟨p, _, hp⟩
  by_cases h : CommentRemover.isTrigger p.2
  · simp [h] at hp
    exact ⟨p.1, hp.symm⟩
  · simp [h] at hp

theorem replaceAt_of_no_replace (edits : List Edit) (i : Nat) (orig : String)
    (h : ∀ e ∈ edits, ∃ j, e = Edit.remove j) :
    replaceAt edits i orig = orig := by
  induction edits generalizing orig with
  | nil => rfl
  | cons e t ih =>
    rcases h e (by simp) with ⟨j, rfl⟩
    exact ih orig (fun e' he' => h e' (by simp [he']))

theorem insertsAt_of_no_insert (edits : List Edit) (i : Nat)
    (h : ∀ e ∈ edits, ∃ j, e = Edit.remove j) :
    insertsAt edits i = [] := by
  induction edits with
  | nil => rfl
  | cons e t ih =>
    rcases h e (by simp) with ⟨j, rfl⟩
    simpa [insertsAt] using ih (fun e' he' => h e' (by simp [he']))

theorem removedAt_commentRemover (lines : List String) (i : Nat) (l : String)
    (hget : lines[i]? = some l) :
    removedAt (CommentRemover.edits lines) i = CommentRemover.isTrigger l := by
  by_cases h : CommentRemover.isTrigger l
  · simp only [h]
    have hmem : (i, l) ∈ lines.enum := by
      rw [List.mem_enum_iff_getElem?]
      exact hget
    have : Edit.remove i ∈ CommentRemover.edits lines := by
      refine List.mem_filterMap.2 ⟨(i, l), hmem, ?_⟩
      simp [h]
    simp only [removedAt]
    rw [List.any_eq_true]
    exact ⟨Edit.remove i, this, by simp⟩
  · simp only [h]
    simp only [removedAt]
    rw [List.any_eq_false]
    intro e he
    rcases List.mem_filterMap.1 he with ⟨p, hp, hpe⟩
    by_cases ht : CommentRemover.isTrigger p.2
    · simp [ht] at hpe
      subst hpe
      simp only []
      rw [List.mem_enum_iff_getElem?] at hp
      by_contra hc
      simp at hc
      subst hc
      rw [hget] at hp
      cases hp
      exact h ht
    · simp [ht] at hpe


theorem flatMap_enumFrom_snd {α β : Type} (f : α → List β) :
    ∀ (n : Nat) (ls : List α),
      (List.enumFrom n ls).flatMap (fun p => f p.2) = ls.flatMap f := by
  intro n ls
  induction ls generalizing n with
  | nil => rfl
  | cons a t ih => simp [List.enumFrom, List.flatMap_cons, ih]

theorem flatMap_enum_snd {α β : Type} (f : α → List β) (ls : List α) :
    ls.enum.flatMap (fun p => f p.2) = ls.flatMap f := by
  simpa [List.enum] using flatMap_enumFrom_snd f 0 ls

theorem flatMap_if_eq_filter {α : Type} (p : α → Bool) (ls : List α) :
    (ls.flatMap fun a => if p a then ([] : List α) else [a]) =
      ls.filter (fun a => !p a) := by
  induction ls with
  | nil => rfl
  | cons a t ih =>
    by_cases h : p a <;> simp [List.flatMap_cons, h, ih, List.filter_cons]

/-- The cleanup pass keeps exactly the lines whose stripped content does not
start with one of the generated-annotation markers. -/
theorem commentRemover_run_eq_filter (lines : List String) :
    CommentRemover.run lines =
      lines.filter (fun l => !CommentRemover.isTrigger l) := by
  have hrem : ∀ e ∈ CommentRemover.edits lines, ∃ j, e = Edit.remove j :=
    commentRemover_edits_are_removes lines
  have hblock : ∀ p ∈ lines.enum,
      (insertsAt (CommentRemover.edits lines) p.1 ++
        (if removedAt (CommentRemover.edits lines) p.1 then []
         else [replaceAt (CommentRemover.edits lines) p.1 p.2])) =
      (if CommentRemover.isTrigger p.2 then [] else [p.2]) := by
    intro p hp
    have hget : lines[p.1]? = some p.2 := List.mem_enum_iff_getElem?.1 hp
    rw [insertsAt_of_no_insert _ _ hrem,
      replaceAt_of_no_replace _ _ _ hrem,
      removedAt_commentRemover lines p.1 p.2 hget]
    simp
  calc CommentRemover.run lines
      = lines.enum.flatMap
          (fun p => if CommentRemover.isTrigger p.2 then [] else [p.2]) := by
        rw [CommentRemover.run, applyEdits]
        exact List.flatMap_congr hblock
    _ = lines.flatMap (fun l => if CommentRemover.isTrigger l then [] else [l]) :=
        flatMap_enum_snd (fun l => if CommentRemover.isTrigger l then [] else [l])
          lines
    _ = lines.filter (fun l => !CommentRemover.isTrigger l) :=
        flatMap_if_eq_filter _ lines

/-- C7: the cleanup pass is idempotent. -/
theorem cleanup_idempotent (lines : List String) :
    CommentRemover.run (CommentRemover.run lines) = CommentRemover.run lines := by
  rw [commentRemover_run_eq_filter lines,
    commentRemover_run_eq_filter
      (lines.filter (fun l => !CommentRemover.isTrigger l)),
    List.filter_filter]
  exact List.filter_congr (fun a _ => by cases CommentRemover.isTrigger a <;> rfl)

/-! ## Ordered-dictionary lemmas -/

theorem lookup_odUpdate {α : Type} (m : List (String × α)) (k k' : String)
    (v : α) :
    List.lookup k' (odUpdate m k v) =
      if k = k' then some v else List.lookup k' m := by
  induction m with
  | nil =>
    simp only [odUpdate, List.lookup_cons, List.lookup_nil]
    by_cases h : k = k'
    · subst h; simp
    · have h1 : (k' == k) = false := by
        simp [beq_iff_eq]; exact fun hc => h hc.symm
      simp [h1, h]
  | cons e t ih =>
    obtain ⟨k0, v0⟩ := e
    by_cases he : k0 = k
    · subst he
      simp only [odUpdate, if_pos rfl, List.lookup_cons]
      by_cases h : k0 = k'
      · subst h; simp
      · have h1 : (k' == k0) = false := by
          simp [beq_iff_eq]; exact fun hc => h hc.symm
        simp [List.lookup_cons, h1, h]
    · simp only [odUpdate, if_neg he, List.lookup_cons]
      by_cases h : k0 = k'
      · subst h
        have h2 : ¬ (k = k0) := fun hc => he hc.symm
        simp [if_neg h2]
      · have h1 : (k' == k0) = false := by
          simp [beq_iff_eq]; exact fun hc => h hc.symm
        simp [List.lookup_cons, h1, ih]

theorem lookup_odAppend {α : Type} (m : List (String × List α)) (k k' : String)
    (v : α) :
    List.lookup k' (odAppend m k v) =
      if k = k' then some ((List.lookup k m).getD [] ++ [v])
      else List.lookup k' m := by
  induction m with
  | nil =>
    simp only [odAppend, List.lookup_cons, List.lookup_nil]
    by_cases h : k = k'
    · subst h; simp
    · have h1 : (k' == k) = false := by
        simp [beq_iff_eq]; exact fun hc => h hc.symm
      simp [h1, h]
  | cons e t ih =>
    obtain ⟨k0, vs0⟩ := e
    by_cases he : k0 = k
    · subst he
      simp only [odAppend, if_pos rfl, List.lookup_cons]
      by_cases h : k0 = k'
      · subst h; simp
      · have h1 : (k' == k0) = false := by
          simp [beq_iff_eq]; exact fun hc => h hc.symm
        simp [List.lookup_cons, h1, h]
    · simp only [odAppend, if_neg he, List.lookup_cons]
      by_cases h : k0 = k'
      · subst h
        have h2 : ¬ (k = k0) := fun hc => he hc.symm
        have h3 : (k == k0) = false := by simp [beq_iff_eq]; exact h2
        simp [if_neg h2, List.lookup_cons, h3]
      · have h1 : (k' == k0) = false := by
          simp [beq_iff_eq]; exact fun hc => h hc.symm
        have h3 : (k == k0) = false := by
          simp [beq_iff_eq]; exact fun hc => he hc.symm
        simp [List.lookup_cons, h1, h3, ih]

theorem odPop_fst {α : Type} (m : List (String × α)) (k : String) :
    (odPop m k).1 = List.lookup k m := by
  induction m with
  | nil => simp [odPop]
  | cons e t ih =>
    obtain ⟨k0, v0⟩ := e
    by_cases he : k0 = k
    · subst he
      simp [odPop, List.lookup_cons]
    · have h3 : (k == k0) = false := by
        simp [beq_iff_eq]; exact fun hc => he hc.symm
      simp [odPop, he, List.lookup_cons, h3, ih]

theorem lookup_odPop_ne {α : Type} (m : List (String × α)) (k k' : String)
    (h : k' ≠ k) :
    List.lookup k' (odPop m k).2 = List.lookup k' m := by
  induction m with
  | nil => simp [odPop]
  | cons e t ih =>
    obtain ⟨k0, v0⟩ := e
    by_cases he : k0 = k
    · subst he
      have h1 : (k' == k0) = false := by simp [beq_iff_eq]; exact h
      simp [odPop, List.lookup_cons, h1]
    · by_cases h2 : k0 = k'
      · subst h2
        simp [odPop, he, List.lookup_cons]
      · have h1 : (k' == k0) = false := by
          simp [beq_iff_eq]; exact fun hc => h2 hc.symm
        simp [odPop, he, List.lookup_cons, h1, ih]

theorem mem_odUpdate {α : Type} (m : List (String × α)) (k k' : String) (v : α)
    (h : k' ∈ (odUpdate m k v).map Prod.fst) :
    k' ∈ m.map Prod.fst ∨ k' = k := by
  induction m with
  | nil => simpa [odUpdate] using h
  | cons e t ih =>
    obtain ⟨k0, v0⟩ := e
    by_cases he : k0 = k
    · subst he
      simp [odUpdate] at h
      rcases h with h | h
      · exact Or.inr h
      · exact Or.inl (by simp; exact Or.inr h)
    · simp [odUpdate, he] at h
      rcases h with h | h
      · exact Or.inl (by simp [h])
      · rcases ih (by simpa using h) with h2 | h2
        · exact Or.inl (by simp at h2 ⊢; exact Or.inr h2)
        · exact Or.inr h2

theorem nodupKeys_odUpdate {α : Type} (m : List (String × α)) (k : String)
    (v : α) (h : (m.map Prod.fst).Nodup) :
    ((odUpdate m k v).map Prod.fst).Nodup := by
  induction m with
  | nil => simp [odUpdate]
  | cons e t ih =>
    obtain ⟨k0, v0⟩ := e
    by_cases he : k0 = k
    · subst he
      simpa [odUpdate] using h
    · simp only [odUpdate, if_neg he, List.map_cons, List.nodup_cons] at h ⊢
      refine ⟨fun hc => ?_, ih h.2⟩
      rcases mem_odUpdate t k k0 v hc with h2 | h2
      · exact h.1 h2
      · exact he h2

theorem mem_odAppend {α : Type} (m : List (String × List α)) (k k' : String)
    (v : α) (h : k' ∈ (odAppend m k v).map Prod.fst) :
    k' ∈ m.map Prod.fst ∨ k' = k := by
  induction m with
  | nil => simpa [odAppend] using h
  | cons e t ih =>
    obtain ⟨k0, vs0⟩ := e
    by_cases he : k0 = k
    · subst he
      simp [odAppend] at h
      rcases h with h | h
      · exact Or.inr h
      · exact Or.inl (by simp; exact Or.inr h)
    · simp [odAppend, he] at h
      rcases h with h | h
      · exact Or.inl (by simp [h])
      · rcases ih (by simpa using h) with h2 | h2
        · exact Or.inl (by simp at h2 ⊢; exact Or.inr h2)
        · exact Or.inr h2

theorem nodupKeys_odAppend {α : Type} (m : List (String × List α)) (k : String)
    (v : α) (h : (m.map Prod.fst).Nodup) :
    ((odAppend m k v).map Prod.fst).Nodup := by
  induction m with
  | nil => simp [odAppend]
  | cons e t ih =>
    obtain ⟨k0, vs0⟩ := e
    by_cases he : k0 = k
    · subst he
      simpa [odAppend] using h
    · simp only [odAppend, if_neg he, List.map_cons, List.nodup_cons] at h ⊢
      refine ⟨fun hc => ?_, ih h.2⟩
      rcases mem_odAppend t k k0 v hc with h2 | h2
      · exact h.1 h2
      · exact he h2

theorem entry_odUpdate {α : Type} (m : List (String × α)) (k : String) (v : α)
    (e : String × α) (h : e ∈ odUpdate m k v) : e ∈ m ∨ e = (k, v) := by
  induction m with
  | nil => simpa [odUpdate] using h
  | cons e0 t ih =>
    obtain ⟨k0, v0⟩ := e0
    by_cases he : k0 = k
    · subst he
      simp [odUpdate] at h
      rcases h with h | h
      · exact Or.inr (by simp [h])
      · exact Or.inl (by simp [h])
    · simp [odUpdate, he] at h
      rcases h with h | h
      · exact Or.inl (by simp [h])
      · rcases ih h with h2 | h2
        · exact Or.inl (by simp [h2])
        · exact Or.inr h2

theorem mem_of_lookup {α : Type} (k : String) (l : List (String × α)) (v : α)
    (h : List.lookup k l = some v) : (k, v) ∈ l := by
  induction l with
  | nil => simp at h
  | cons e t ih =>
    obtain ⟨k0, v0⟩ := e
    by_cases he : k = k0
    · subst he
      simp [List.lookup_cons] at h
      simp [h]
    · have hb : (k == k0) = false := by simp [beq_iff_eq]; exact he
      simp [List.lookup_cons, hb] at h
      exact List.mem_cons_of_mem _ (ih h)

theorem lookup_append_str {α : Type} (k : String) :
    ∀ (l1 l2 : List (String × α)),
      List.lookup k (l1 ++ l2) =
        match List.lookup k l1 with
        | some v => some v
        | none => List.lookup k l2 := by
  intro l1
  induction l1 with
  | nil => intro l2; simp
  | cons e t ih =>
    intro l2
    obtain ⟨k0, v0⟩ := e
    by_cases he : k = k0
    · subst he
      simp [List.lookup_cons]
    · have hb : (k == k0) = false := by simp [beq_iff_eq]; exact he
      simp [List.lookup_cons, hb, ih]

theorem lookup_foldl_odUpdate {α : Type} (k : String) :
    ∀ (ws : List (String × α)) (m0 : List (String × α)),
      List.lookup k (ws.foldl (fun m w => odUpdate m w.1 w.2) m0) =
        match List.lookup k ws.reverse with
        | some v => some v
        | none => List.lookup k m0 := by
  intro ws
  induction ws with
  | nil => intro m0; simp
  | cons w t ih =>
    intro m0
    obtain ⟨w1, w2⟩ := w
    rw [List.foldl_cons, ih, List.reverse_cons, lookup_append_str]
    rcases hl : List.lookup k t.reverse with _ | v
    · simp only []
      rw [lookup_odUpdate]
      by_cases hw : w1 = k
      · subst hw
        simp [List.lookup_cons]
      · have hb : (k == w1) = false := by
          simp [beq_iff_eq]; exact fun hc => hw hc.symm
        simp [List.lookup_cons, hb, hw]
    · simp only []

theorem lookup_foldl_odAppend {α : Type} (k : String) :
    ∀ (ws : List (String × α)) (m0 : List (String × List α)),
      List.lookup k (ws.foldl (fun m w => odAppend m w.1 w.2) m0) =
        (match List.lookup k m0 with
         | some vs => some (vs ++ (ws.filter (fun w => w.1 = k)).map Prod.snd)
         | none =>
           if ((ws.filter (fun w => w.1 = k)).map Prod.snd).isEmpty then none
           else some ((ws.filter (fun w => w.1 = k)).map Prod.snd)) := by
  intro ws
  induction ws with
  | nil =>
    intro m0
    rcases hl : List.lookup k m0 with _ | vs <;> simp [hl]
  | cons w t ih =>
    intro m0
    rw [List.foldl_cons, ih]
    by_cases hw : w.1 = k
    · rw [lookup_odAppend, if_pos hw]
      have hf : (w :: t).filter (fun w => w.1 = k) =
          w :: t.filter (fun w => w.1 = k) := by
        simp [List.filter_cons, hw]
      rw [hf]
      rcases hl : List.lookup k m0 with _ | vs <;> simp [hl, hw]
    · rw [lookup_odAppend, if_neg hw]
      have hf : (w :: t).filter (fun w => w.1 = k) =
          t.filter (fun w => w.1 = k) := by
        simp [List.filter_cons, hw]
      rw [hf]

/-! ## Call-site pass: scan and finish decomposition -/

namespace FunctionPatcher

theorem step_edits (hp : NativeSchema) (st : State) (p : Nat × String) :
    (step hp st p).edits = st.edits ++ lineEdits hp p.2 p.1 := rfl

theorem step_diags (hp : NativeSchema) (st : State) (p : Nat × String) :
    (step hp st p).diags = st.diags ++ lineDiags hp p.2 := rfl

theorem step_count (hp : NativeSchema) (st : State) (p : Nat × String) :
    (step hp st p).count = st.count + lineCount hp p.2 := rfl

theorem step_uses (hp : NativeSchema) (st : State) (p : Nat × String) :
    (step hp st p).uses =
      match fpClassify p.2 with
      | .use n => odUpdate st.uses n (p.2, p.1)
      | _ => st.uses := rfl

theorem step_assigns (hp : NativeSchema) (st : State) (p : Nat × String) :
    (step hp st p).assigns =
      match fpClassify p.2 with
      | .assign n lib =>
        if (List.lookup lib hp.functions).isSome then odAppend st.assigns n lib
        else st.assigns
      | _ => st.assigns := rfl

theorem foldl_step_edits (hp : NativeSchema) :
    ∀ (ps : List (Nat × String)) (st : State),
      (ps.foldl (step hp) st).edits =
        st.edits ++ ps.flatMap (fun p => lineEdits hp p.2 p.1) := by
  intro ps
  induction ps with
  | nil => intro st; simp
  | cons p t ih =>
    intro st
    rw [List.foldl_cons, ih, step_edits, List.flatMap_cons, List.append_assoc]

theorem foldl_step_diags (hp : NativeSchema) :
    ∀ (ps : List (Nat × String)) (st : State),
      (ps.foldl (step hp) st).diags =
        st.diags ++ ps.flatMap (fun p => lineDiags hp p.2) := by
  intro ps
  induction ps with
  | nil => intro st; simp
  | cons p t ih =>
    intro st
    rw [List.foldl_cons, ih, step_diags, List.flatMap_cons, List.append_assoc]

theorem foldl_step_count (hp : NativeSchema) :
    ∀ (ps : List (Nat × String)) (st : State),
      (ps.foldl (step hp) st).count =
        st.count + (ps.map (fun p => lineCount hp p.2)).sum := by
  intro ps
  induction ps with
  | nil => intro st; simp
  | cons p t ih =>
    intro st
    rw [List.foldl_cons, ih, step_count, List.map_cons, List.sum_cons,
      Nat.add_assoc]

theorem foldl_step_uses (hp : NativeSchema) :
    ∀ (ps : List (Nat × String)) (st : State),
      (ps.foldl (step hp) st).uses =
        (usesWrites ps).foldl (fun m w => odUpdate m w.1 w.2) st.uses := by
  intro ps
  induction ps with
  | nil => intro st; simp [usesWrites]
  | cons p t ih =>
    intro st
    rw [List.foldl_cons, ih]
    have hcons : usesWrites (p :: t) =
        (match fpClassify p.2 with
         | FpMatch.use n => [(n, p.2, p.1)]
         | _ => []) ++ usesWrites t := by
      rcases hc : fpClassify p.2 with v | ⟨n, lib⟩ | n | _ <;>
        simp [usesWrites, List.filterMap_cons, hc]
    rw [hcons, List.foldl_append]
    rcases hc : fpClassify p.2 with v | ⟨n, lib⟩ | n | _ <;>
      rw [step_uses] <;> simp [hc]

theorem foldl_step_assigns (hp : NativeSchema) :
    ∀ (ps : List (Nat × String)) (st : State),
      (ps.foldl (step hp) st).assigns =
        (assignsWrites hp ps).foldl (fun m w => odAppend m w.1 w.2) st.assigns := by
  intro ps
  induction ps with
  | nil => intro st; simp [assignsWrites]
  | cons p t ih =>
    intro st
    rw [List.foldl_cons, ih]
    have hcons : assignsWrites hp (p :: t) =
        (match fpClassify p.2 with
         | FpMatch.assign n lib =>
           if (List.lookup lib hp.functions).isSome then [(n, lib)] else []
         | _ => []) ++ assignsWrites hp t := by
      rcases hc : fpClassify p.2 with v | ⟨n, lib⟩ | n | _ <;>
        simp [assignsWrites, List.filterMap_cons, hc]
      rcases hl : (List.lookup lib hp.functions).isSome with _ | _ <;> simp [hl]
    rw [hcons, List.foldl_append]
    rcases hc : fpClassify p.2 with v | ⟨n, lib⟩ | n | _ <;>
      rw [step_assigns] <;> simp [hc]
    rcases hl : (List.lookup lib hp.functions).isSome with _ | _ <;> simp [hl]

theorem finishLoop_uses (hp : NativeSchema) :
    ∀ (us : List (String × String × Nat)) (st : State),
      (finishLoop hp st us).uses = st.uses := by
  intro us
  induction us with
  | nil => intro st; rfl
  | cons u rest ih =>
    intro st
    obtain ⟨n, l, i⟩ := u
    simp only [finishLoop]
    rw [ih]

theorem finishLoop_assigns (hp : NativeSchema) :
    ∀ (us : List (String × String × Nat)) (st : State),
      (finishLoop hp st us).assigns =
        us.foldl (fun a u => (odPop a u.1).2) st.assigns := by
  intro us
  induction us with
  | nil => intro st; rfl
  | cons u rest ih =>
    intro st
    obtain ⟨n, l, i⟩ := u
    simp only [finishLoop, List.foldl_cons]
    rw [ih]

theorem lookup_foldl_odPop_not_mem {α : Type} (k : String) :
    ∀ (us : List (String × String × Nat)) (A : List (String × α)),
      k ∉ us.map Prod.fst →
      List.lookup k (us.foldl (fun a u => (odPop a u.1).2) A) =
        List.lookup k A := by
  intro us
  induction us with
  | nil => intro A _; rfl
  | cons u rest ih =>
    intro A hk
    simp only [List.map_cons, List.mem_cons] at hk
    push_neg at hk
    rw [List.foldl_cons, ih _ hk.2, lookup_odPop_ne _ _ _ hk.1]

theorem finishLoop_decomp (hp : NativeSchema) :
    ∀ (us : List (String × String × Nat)) (st : State),
      (us.map Prod.fst).Nodup →
      (finishLoop hp st us).edits =
        st.edits ++ us.flatMap (fun u =>
          useEdits hp u.1 u.2.1 u.2.2 ((List.lookup u.1 st.assigns).getD [])) ∧
      (finishLoop hp st us).diags =
        st.diags ++ us.flatMap (fun u =>
          useDiags u.1 ((List.lookup u.1 st.assigns).getD [])) ∧
      (finishLoop hp st us).count =
        st.count + (us.map (fun u =>
          ((List.lookup u.1 st.assigns).getD []).length)).sum := by
  intro us
  induction us with
  | nil =>
    intro st _
    exact ⟨by simp [finishLoop], by simp [finishLoop], by simp [finishLoop]⟩
  | cons u rest ih =>
    intro st hnd
    obtain ⟨n, l, i⟩ := u
    simp only [List.map_cons, List.nodup_cons] at hnd
    obtain ⟨hn, hnd2⟩ := hnd
    have hlook : ∀ u ∈ rest,
        List.lookup u.1 (odPop st.assigns n).2 = List.lookup u.1 st.assigns := by
      intro u hu
      refine lookup_odPop_ne _ _ _ fun hc => ?_
      exact hn (by rw [← hc]; exact List.mem_map_of_mem Prod.fst hu)
    simp only [finishLoop]
    rw [odPop_fst]
    obtain ⟨he, hd, hc⟩ := ih
      { edits := st.edits ++ useEdits hp n l i ((List.lookup n st.assigns).getD [])
        diags := st.diags ++ useDiags n ((List.lookup n st.assigns).getD [])
        count := st.count + ((List.lookup n st.assigns).getD []).length
        detected := ((List.lookup n st.assigns).getD []).foldl insertSet
          st.detected
        assigns := (odPop st.assigns n).2
        uses := st.uses } hnd2
    dsimp only [] at he hd hc
    have hE : rest.flatMap (fun u =>
          useEdits hp u.1 u.2.1 u.2.2
            ((List.lookup u.1 (odPop st.assigns n).2).getD [])) =
        rest.flatMap (fun u =>
          useEdits hp u.1 u.2.1 u.2.2 ((List.lookup u.1 st.assigns).getD [])) :=
      List.flatMap_congr fun u hu => by rw [hlook u hu]
    have hD : rest.flatMap (fun u =>
          useDiags u.1 ((List.lookup u.1 (odPop st.assigns n).2).getD [])) =
        rest.flatMap (fun u =>
          useDiags u.1 ((List.lookup u.1 st.assigns).getD [])) :=
      List.flatMap_congr fun u hu => by rw [hlook u hu]
    have hC : rest.map (fun u =>
          ((List.lookup u.1 (odPop st.assigns n).2).getD []).length) =
        rest.map (fun u =>
          ((List.lookup u.1 st.assigns).getD []).length) :=
      List.map_congr_left fun u hu => by rw [hlook u hu]
    refine ⟨?_, ?_, ?_⟩
    · rw [he, hE]
      simp [List.append_assoc]
    · rw [hd, hD]
      simp [List.append_assoc]
    · rw [hc, hC]
      simp [Nat.add_assoc]

end FunctionPatcher

/-! ## Localizing scheduled inserts -/

theorem insertsAt_append (e1 e2 : List Edit) (i : Nat) :
    insertsAt (e1 ++ e2) i = insertsAt e1 i ++ insertsAt e2 i := by
  simp [insertsAt]

theorem insertsAt_eq_nil_of_ne (edits : List Edit) (i : Nat)
    (h : ∀ e ∈ edits, editIndex e ≠ i) : insertsAt edits i = [] := by
  induction edits with
  | nil => rfl
  | cons e t ih =>
    have ht : insertsAt t i = [] :=
      ih fun e' he' => h e' (List.mem_cons_of_mem _ he')
    have he := h e (by simp)
    rcases e with ⟨j, ls⟩ | ⟨j, s⟩ | j
    · simp only [editIndex] at he
      simpa [insertsAt, List.flatMap_cons, he] using ht
    · simpa [insertsAt, List.flatMap_cons] using ht
    · simpa [insertsAt, List.flatMap_cons] using ht

theorem insertsAt_flatMap {α : Type} (ps : List α) (F : α → List Edit) (i : Nat) :
    insertsAt (ps.flatMap F) i = ps.flatMap (fun p => insertsAt (F p) i) := by
  induction ps with
  | nil => rfl
  | cons p t ih =>
    rw [List.flatMap_cons, insertsAt_append, ih, List.flatMap_cons]

theorem flatMap_eq_nil_of_forall {α β : Type} (ps : List α) (g : α → List β)
    (h : ∀ p ∈ ps, g p = []) : ps.flatMap g = [] := by
  induction ps with
  | nil => rfl
  | cons p t ih =>
    rw [List.flatMap_cons, h p (by simp), List.nil_append]
    exact ih fun p hp => h p (List.mem_cons_of_mem _ hp)

theorem flatMap_eq_single {α β : Type} [DecidableEq α] (ps : List α)
    (g : α → List β) (p0 : α) (h1 : ∀ p ∈ ps, p ≠ p0 → g p = [])
    (h2 : ps.count p0 = 1) : ps.flatMap g = g p0 := by
  induction ps with
  | nil => simp at h2
  | cons a t ih =>
    by_cases ha : a = p0
    · subst ha
      rw [List.count_cons_self] at h2
      have ht : t.count a = 0 := by omega
      have hnot : a ∉ t := by
        rw [← List.count_pos_iff]
        omega
      rw [List.flatMap_cons, flatMap_eq_nil_of_forall t g
        (fun p hp => h1 p (List.mem_cons_of_mem _ hp)
          (fun hc => hnot (hc ▸ hp))), List.append_nil]
    · rw [List.flatMap_cons, h1 a (by simp) ha, List.nil_append]
      refine ih (fun p hp hne => h1 p (List.mem_cons_of_mem _ hp) hne) ?_
      rwa [List.count_cons_of_ne (fun hc => ha hc.symm)] at h2

/-! ### Enumeration facts -/

theorem enum_nodup (lines : List String) : lines.enum.Nodup := by
  have h : (lines.enum.map Prod.fst).Nodup := by
    rw [List.enum_map_fst]
    exact List.nodup_range _
  exact h.of_map Prod.fst

theorem enum_eq_of_fst (lines : List String) (i : Nat) (l : String)
    (p : Nat × String) (hl : lines[i]? = some l) (hp : p ∈ lines.enum)
    (hfst : p.1 = i) : p = (i, l) := by
  have := List.mem_enum_iff_getElem?.1 hp
  rw [hfst, hl] at this
  obtain ⟨p1, p2⟩ := p
  simp only at hfst
  cases this
  simp [hfst]

theorem enum_fst_lt (lines : List String) (xs zs : List (Nat × String))
    (y : Nat × String) (hsplit : lines.enum = xs ++ y :: zs) :
    ∀ p ∈ xs, p.1 < y.1 := by
  have hpw : lines.enum.Pairwise (fun a b => a.1 < b.1) := by
    have h := List.pairwise_lt_range lines.length
    have h2 : (lines.enum.map Prod.fst).Pairwise (· < ·) := by
      rw [List.enum_map_fst]
      exact h
    exact (List.pairwise_map.1 h2)
  rw [hsplit] at hpw
  have := (List.pairwise_append.1 hpw).2.2
  intro p hp
  exact this p hp y (by simp)

/-! ## Call-site pass: whole-run facts -/

namespace FunctionPatcher

theorem lineEdits_all_insert (hp : NativeSchema) (l : String) (j : Nat) :
    ∀ e ∈ lineEdits hp l j, ∃ ls, e = Edit.insert j ls := by
  intro e he
  rcases hc : fpClassify l with v | ⟨n, lib⟩ | n | _ <;>
    simp only [lineEdits, hc] at he
  · rcases List.mem_append.1 he with h | h
    · by_cases hs : strContainsSub l "lib.wgpu" = true <;> simp [hs] at h
      exact ⟨_, h⟩
    · rcases hl : List.lookup v hp.functions with _ | sig <;> simp [hl] at h <;>
        exact ⟨_, h⟩
  · rcases hl : List.lookup lib hp.functions with _ | sig <;> simp [hl] at he
    exact ⟨_, he⟩
  · simp at he
  · simp at he

theorem useEdits_all_insert (hp : NativeSchema) (n l : String) (i : Nat)
    (L : List String) :
    ∀ e ∈ useEdits hp n l i L, ∃ ls, e = Edit.insert i ls := by
  intro e he
  by_cases hL : L.isEmpty <;> simp only [useEdits, hL, if_pos, if_neg] at he
  · simp at he
    exact ⟨_, he⟩
  · simp at he
    obtain ⟨ln, _, hln⟩ := he
    exact ⟨_, hln.symm⟩

theorem finishLoop_edits_mem (hp : NativeSchema) :
    ∀ (us : List (String × String × Nat)) (st : State),
      ∀ e ∈ (finishLoop hp st us).edits,
        e ∈ st.edits ∨ ∃ u ∈ us, ∃ L, e ∈ useEdits hp u.1 u.2.1 u.2.2 L := by
  intro us
  induction us with
  | nil => intro st e he; exact Or.inl he
  | cons u rest ih =>
    intro st e he
    obtain ⟨n, l, i⟩ := u
    simp only [finishLoop] at he
    rcases ih _ e he with h | ⟨u', hu', L, hL⟩
    · dsimp only [] at h
      rcases List.mem_append.1 h with h | h
      · exact Or.inl h
      · exact Or.inr ⟨(n, l, i), by simp, _, h⟩
    · exact Or.inr ⟨u', List.mem_cons_of_mem _ hu', L, hL⟩

theorem finish_edits (hp : NativeSchema) (st : State) :
    (finish hp st).edits = (finishLoop hp st st.uses).edits := rfl

theorem finish_diags (hp : NativeSchema) (st : State) :
    (finish hp st).diags =
      (finishLoop hp st st.uses).diags ++
        ((finishLoop hp st st.uses).assigns.map fun p =>
          "ERROR: " ++ p.1 ++ " assigned a value but it is never used") ++
        ["Validated " ++ toString (finishLoop hp st st.uses).count ++
          " C function calls"] ++
        [notUsingMsg hp (finishLoop hp st st.uses).detected] := by
  simp [finish, List.append_assoc]

theorem run_edits_all_insert (hp : NativeSchema) (lines : List String) :
    ∀ e ∈ (run hp lines).edits, ∃ j ls, e = Edit.insert j ls := by
  intro e he
  rw [run, finish_edits] at he
  rcases finishLoop_edits_mem hp _ _ e he with h | ⟨u, _, L, hL⟩
  · rw [scan, foldl_step_edits] at h
    simp only [initState, List.nil_append] at h
    rcases List.mem_flatMap.1 h with ⟨p, hpmem, hpe⟩
    obtain ⟨ls, hls⟩ := lineEdits_all_insert _ _ _ e hpe
    exact ⟨_, _, hls⟩
  · obtain ⟨ls, hls⟩ := useEdits_all_insert _ _ _ _ _ e hL
    exact ⟨_, _, hls⟩

end FunctionPatcher

theorem replaceAt_of_all_insert (edits : List Edit) (i : Nat) (orig : String)
    (h : ∀ e ∈ edits, ∃ j ls, e = Edit.insert j ls) :
    replaceAt edits i orig = orig := by
  induction edits generalizing orig with
  | nil => rfl
  | cons e t ih =>
    obtain ⟨j, ls, hjl⟩ := h e (by simp)
    subst hjl
    exact ih orig (fun e' he' => h e' (List.mem_cons_of_mem _ he'))

theorem removedAt_of_all_insert (edits : List Edit) (i : Nat)
    (h : ∀ e ∈ edits, ∃ j ls, e = Edit.insert j ls) :
    removedAt edits i = false := by
  induction edits with
  | nil => rfl
  | cons e t ih =>
    obtain ⟨j, ls, hjl⟩ := h e (by simp)
    subst hjl
    have ht := ih (fun e' he' => h e' (List.mem_cons_of_mem _ he'))
    simpa [removedAt] using ht

theorem nodup_foldl_odUpdate {α : Type} :
    ∀ (ws : List (String × α)) (m0 : List (String × α)),
      (m0.map Prod.fst).Nodup →
      (((ws.foldl (fun m w => odUpdate m w.1 w.2) m0).map Prod.fst)).Nodup := by
  intro ws
  induction ws with
  | nil => intro m0 h; exact h
  | cons w t ih =>
    intro m0 h
    rw [List.foldl_cons]
    exact ih _ (nodupKeys_odUpdate _ _ _ h)

theorem entries_foldl_odUpdate {α : Type} :
    ∀ (ws : List (String × α)) (m0 : List (String × α)) (e : String × α),
      e ∈ ws.foldl (fun m w => odUpdate m w.1 w.2) m0 → e ∈ m0 ∨ e ∈ ws := by
  intro ws
  induction ws with
  | nil => intro m0 e h; exact Or.inl h
  | cons w t ih =>
    intro m0 e h
    rw [List.foldl_cons] at h
    rcases ih _ e h with h2 | h2
    · rcases entry_odUpdate _ _ _ e h2 with h3 | h3
      · exact Or.inl h3
      · exact Or.inr (by simp [h3])
    · exact Or.inr (List.mem_cons_of_mem _ h2)

namespace FunctionPatcher

theorem scan_uses (hp : NativeSchema) (lines : List String) :
    (scan hp lines).uses =
      (usesWrites lines.enum).foldl (fun m w => odUpdate m w.1 w.2) [] := by
  rw [scan, foldl_step_uses]
  rfl

theorem scan_uses_nodup (hp : NativeSchema) (lines : List String) :
    ((scan hp lines).uses.map Prod.fst).Nodup := by
  rw [scan_uses]
  exact nodup_foldl_odUpdate _ _ (by simp)

theorem usesWrites_mem (ps : List (Nat × String)) (w : String × String × Nat)
    (hw : w ∈ usesWrites ps) :
    (w.2.2, w.2.1) ∈ ps ∧ fpClassify w.2.1 = FpMatch.use w.1 := by
  obtain ⟨n, l, i⟩ := w
  rcases List.mem_filterMap.1 hw with ⟨p, hp, hpe⟩
  rcases hc : fpClassify p.2 with v | ⟨n0, lib⟩ | n0 | _ <;> simp [hc] at hpe
  obtain ⟨h1, h2, h3⟩ := hpe
  subst h1
  subst h2
  subst h3
  exact ⟨by simpa using hp, hc⟩

theorem scan_uses_valid (hp : NativeSchema) (lines : List String) :
    ∀ w ∈ (scan hp lines).uses,
      lines[w.2.2]? = some w.2.1 ∧ fpClassify w.2.1 = FpMatch.use w.1 := by
  intro w hw
  rw [scan_uses] at hw
  rcases entries_foldl_odUpdate _ _ _ hw with h | h
  · simp at h
  · have := usesWrites_mem _ _ h
    exact ⟨List.mem_enum_iff_getElem?.1 this.1, this.2⟩

/-- The complete pass schedules only line inserts: `removedAt` and
`replaceAt` are inert on its edit list. -/
theorem run_removedAt (hp : NativeSchema) (lines : List String) (i : Nat) :
    removedAt (run hp lines).edits i = false :=
  removedAt_of_all_insert _ _ (run_edits_all_insert hp lines)

theorem run_replaceAt (hp : NativeSchema) (lines : List String) (i : Nat)
    (orig : String) : replaceAt (run hp lines).edits i orig = orig :=
  replaceAt_of_all_insert _ _ _ (run_edits_all_insert hp lines)

end FunctionPatcher

/-- The materialized block of original line `i` (its scheduled inserts, then
the line itself) is a contiguous run of the pass output. -/
theorem applyEdits_block_infix (lines : List String) (edits : List Edit)
    (i : Nat) (l : String) (hl : lines[i]? = some l) :
    (insertsAt edits i ++
      (if removedAt edits i then [] else [replaceAt edits i l])) <:+:
      applyEdits lines edits := by
  have hmem : (i, l) ∈ lines.enum := List.mem_enum_iff_getElem?.2 hl
  obtain ⟨s, t, hst⟩ := List.append_of_mem hmem
  rw [applyEdits, hst, List.flatMap_append, List.flatMap_cons]
  refine ⟨s.flatMap fun p => insertsAt edits p.1 ++
      (if removedAt edits p.1 then [] else [replaceAt edits p.1 p.2]),
    t.flatMap fun p => insertsAt edits p.1 ++
      (if removedAt edits p.1 then [] else [replaceAt edits p.1 p.2]), ?_⟩
  simp [List.append_assoc]

namespace FunctionPatcher

/-- All inserts the scan schedules against line `i` come from scanning
line `i` itself. -/
theorem scan_insertsAt (hp : NativeSchema) (lines : List String) (i : Nat)
    (l : String) (hl : lines[i]? = some l) :
    insertsAt (scan hp lines).edits i = insertsAt (lineEdits hp l i) i := by
  rw [scan, foldl_step_edits]
  have hinit : initState.edits = [] := rfl
  rw [hinit, List.nil_append, insertsAt_flatMap]
  have hmem : (i, l) ∈ lines.enum := List.mem_enum_iff_getElem?.2 hl
  have h := flatMap_eq_single lines.enum
    (fun p => insertsAt (lineEdits hp p.2 p.1) i) (i, l)
    (fun p hpm hne => by
      by_cases hfst : p.1 = i
      · exact absurd (enum_eq_of_fst lines i l p hl hpm hfst) hne
      · exact insertsAt_eq_nil_of_ne _ _ fun e he => by
          obtain ⟨ls, hls⟩ := lineEdits_all_insert hp p.2 p.1 e he
          subst hls
          simpa [editIndex] using hfst)
    (List.count_eq_one_of_mem (enum_nodup lines) hmem)
  exact h

/-- All inserts the whole pass schedules against a line that is not an
indirect-use line come from scanning that line. -/
theorem run_insertsAt (hp : NativeSchema) (lines : List String) (i : Nat)
    (l : String) (hl : lines[i]? = some l)
    (hnu : ∀ n, fpClassify l ≠ FpMatch.use n) :
    insertsAt (run hp lines).edits i = insertsAt (lineEdits hp l i) i := by
  rw [run, finish_edits]
  obtain ⟨he, _, _⟩ := finishLoop_decomp hp (scan hp lines).uses (scan hp lines)
    (scan_uses_nodup hp lines)
  rw [he, insertsAt_append, scan_insertsAt hp lines i l hl,
    insertsAt_flatMap]
  have hnil : ((scan hp lines).uses.flatMap fun u =>
      insertsAt (useEdits hp u.1 u.2.1 u.2.2
        ((List.lookup u.1 (scan hp lines).assigns).getD [])) i) = [] := by
    refine flatMap_eq_nil_of_forall _ _ fun u hu => ?_
    refine insertsAt_eq_nil_of_ne _ _ fun e he2 => ?_
    obtain ⟨ls, hls⟩ := useEdits_all_insert hp u.1 u.2.1 u.2.2 _ e he2
    subst hls
    simp only [editIndex]
    intro hc
    subst hc
    obtain ⟨hv1, hv2⟩ := scan_uses_valid hp lines u hu
    rw [hl] at hv1
    cases hv1
    exact hnu u.1 hv2
  rw [hnil, List.append_nil]

end FunctionPatcher

/-! ### Classifying generated lines -/

theorem dropWhile_replicate_space (n : Nat) (l : List Char) :
    (List.replicate n ' ' ++ l).dropWhile isPySpace = l.dropWhile isPySpace := by
  induction n with
  | zero => rfl
  | succ m ih => simpa [List.replicate_succ, List.dropWhile_cons] using ih

theorem pyLStrip_indent (line s : String) :
    pyLStrip (indentOf line ++ s) = pyLStrip s := by
  unfold pyLStrip indentOf
  rw [String.data_append]
  congr 1
  exact dropWhile_replicate_space _ _

theorem isPrefixOf_append_left (p a b : List Char) (h : p.length ≤ a.length) :
    p.isPrefixOf (a ++ b) = p.isPrefixOf a := by
  induction p generalizing a with
  | nil => simp
  | cons c cs ih =>
    rcases a with _ | ⟨d, ds⟩
    · simp at h
    · simp only [List.cons_append, List.isPrefixOf_cons₂]
      by_cases hcd : (c == d) = true
      · simp [hcd, ih ds (by simpa using h)]
      · simp only [hcd]
        simp

theorem pyLStrip_data (s : String) :
    (pyLStrip s).data = s.data.dropWhile isPySpace := rfl

/-- Scheduled annotation lines have the shape `indent ++ marker ++ tail`;
whether such a line starts (after stripping) with a given marker is decided
by the constant part alone. -/
theorem startsWith_lstrip_indent_concat (l c v pre : String)
    (hcne : (c.data.dropWhile isPySpace).isEmpty = false)
    (hcfix : c.data.dropWhile isPySpace = c.data)
    (hlen : pre.data.length ≤ c.data.length) :
    pyStartsWith (pyLStrip ((indentOf l ++ c) ++ v)) pre =
      pyStartsWith c pre := by
  unfold pyStartsWith
  rw [pyLStrip_data, String.data_append, String.data_append]
  have hind : (indentOf l).data =
      List.replicate (l.data.takeWhile isPySpace).length ' ' := rfl
  rw [hind, List.append_assoc, dropWhile_replicate_space,
    List.dropWhile_append]
  rw [hcne]
  simp only [Bool.false_eq_true, if_false]
  rw [hcfix, isPrefixOf_append_left _ _ _ hlen]

/-! ## C2: direct native call with unknown symbol -/

/-- C2: for a scanned line invoking an unknown native symbol through the
library handle, the call-site pass schedules exactly one unknown-function
fix-me against that line (after the possible deprecated-handle fix-me),
the fix-me lands immediately before the call line in the output, the line
contributes exactly one ERROR diagnostic and that diagnostic is emitted,
no signature comment is scheduled for the line, and the line contributes
nothing to the validated-call counter. -/
theorem c2_unknown_direct_call (hp : NativeSchema) (lines : List String)
    (i : Nat) (l v : String) (hl : lines[i]? = some l)
    (hm : matchDirectCall l = some v)
    (hf : List.lookup v hp.functions = none) :
    insertsAt (FunctionPatcher.run hp lines).edits i =
      (if strContainsSub l "lib.wgpu" then
        [indentOf l ++ "# FIXME: wgpu func calls must be done from libf"]
       else []) ++
      [indentOf l ++ "# FIXME: unknown C function " ++ v] ∧
    [indentOf l ++ "# FIXME: unknown C function " ++ v, l] <:+:
      FunctionPatcher.output hp lines ∧
    FunctionPatcher.lineDiags hp l = ["ERROR: unknown C function " ++ v] ∧
    ("ERROR: unknown C function " ++ v) ∈ (FunctionPatcher.run hp lines).diags ∧
    (∀ s ∈ insertsAt (FunctionPatcher.run hp lines).edits i,
      isHLine s = false) ∧
    FunctionPatcher.lineCount hp l = 0 := by
  have hcl : fpClassify l = FpMatch.direct v := by
    rw [fpClassify, hm]
  have hnu : ∀ n, fpClassify l ≠ FpMatch.use n := by
    intro n hc
    rw [hcl] at hc
    cases hc
  have hle : FunctionPatcher.lineEdits hp l i =
      (if strContainsSub l "lib.wgpu" then
        [Edit.insert i [indentOf l ++ "# FIXME: wgpu func calls must be done from libf"]]
       else []) ++
      [Edit.insert i [indentOf l ++ "# FIXME: unknown C function " ++ v]] := by
    rw [FunctionPatcher.lineEdits, hcl]
    simp [hf]
  have hIns : insertsAt (FunctionPatcher.run hp lines).edits i =
      (if strContainsSub l "lib.wgpu" then
        [indentOf l ++ "# FIXME: wgpu func calls must be done from libf"]
       else []) ++
      [indentOf l ++ "# FIXME: unknown C function " ++ v] := by
    rw [FunctionPatcher.run_insertsAt hp lines i l hl hnu, hle]
    by_cases hs : strContainsSub l "lib.wgpu" = true <;>
      simp [hs, insertsAt, List.flatMap_cons]
  refine ⟨hIns, ?_, ?_, ?_, ?_, ?_⟩
  · -- the fix-me is immediately before the call line in the output
    have hblock := applyEdits_block_infix lines
      (FunctionPatcher.run hp lines).edits i l hl
    rw [FunctionPatcher.run_removedAt, FunctionPatcher.run_replaceAt] at hblock
    simp only [Bool.false_eq_true, if_false] at hblock
    refine List.IsInfix.trans ?_ hblock
    rw [hIns]
    by_cases hs : strContainsSub l "lib.wgpu" = true <;> simp [hs]
    exact ⟨[indentOf l ++ "# FIXME: wgpu func calls must be done from libf"],
      [], by simp⟩
  · rw [FunctionPatcher.lineDiags, hcl]
    simp [hf]
  · -- the ERROR is in the run's report stream
    rw [FunctionPatcher.run, FunctionPatcher.finish_diags]
    obtain ⟨_, hd, _⟩ := FunctionPatcher.finishLoop_decomp hp
      (FunctionPatcher.scan hp lines).uses (FunctionPatcher.scan hp lines)
      (FunctionPatcher.scan_uses_nodup hp lines)
    rw [hd, FunctionPatcher.scan, FunctionPatcher.foldl_step_diags]
    have hmem : (i, l) ∈ lines.enum := List.mem_enum_iff_getElem?.2 hl
    have : ("ERROR: unknown C function " ++ v) ∈
        lines.enum.flatMap (fun p => FunctionPatcher.lineDiags hp p.2) := by
      refine List.mem_flatMap.2 ⟨(i, l), hmem, ?_⟩
      rw [FunctionPatcher.lineDiags, hcl]
      simp [hf]
    simp only [FunctionPatcher.initState, List.nil_append, List.mem_append]
    exact Or.inl (Or.inl (Or.inl (Or.inl this)))
  · intro s hs
    rw [hIns] at hs
    have h2 : isHLine
        ((indentOf l ++ "# FIXME: unknown C function ") ++ v) = false := by
      rw [isHLine, startsWith_lstrip_indent_concat l _ v _ (by decide)
        (by decide) (by decide)]
      decide
    rcases List.mem_append.1 hs with h | h
    · by_cases hcont : strContainsSub l "lib.wgpu" = true <;>
        simp [hcont] at h
      subst h
      rw [isHLine, pyLStrip_indent]
      decide
    · simp at h
      subst h
      rw [show indentOf l ++ "# FIXME: unknown C function " ++ v =
        (indentOf l ++ "# FIXME: unknown C function ") ++ v from rfl]
      exact h2
  · rw [FunctionPatcher.lineCount, hcl]
    simp [hf]

/-- C2 witness: a concrete call to `wgpuDeviceRelease` against a schema that
lacks the symbol. -/
theorem c2_unknown_direct_call_witness :
    (["    x = libf.wgpuDeviceRelease(a)"][0]? =
      some "    x = libf.wgpuDeviceRelease(a)") ∧
    matchDirectCall "    x = libf.wgpuDeviceRelease(a)" =
      some "wgpuDeviceRelease" ∧
    List.lookup "wgpuDeviceRelease" hpColor.functions = none ∧
    ["    # FIXME: unknown C function wgpuDeviceRelease",
      "    x = libf.wgpuDeviceRelease(a)"] <:+:
      FunctionPatcher.output hpColor ["    x = libf.wgpuDeviceRelease(a)"] :=
  ⟨rfl, rfl, rfl,
    (c2_unknown_direct_call hpColor ["    x = libf.wgpuDeviceRelease(a)"] 0
      "    x = libf.wgpuDeviceRelease(a)" "wgpuDeviceRelease"
      rfl rfl rfl).2.1⟩

/-! ## C10: one use site per indirection field, last scan wins -/

theorem lookup_usesWrites (qs : List (Nat × String)) (name : String) :
    List.lookup name (FunctionPatcher.usesWrites qs) =
      (qs.find? (fun p => fpClassify p.2 == FpMatch.use name)).map
        (fun p => (p.2, p.1)) := by
  induction qs with
  | nil => rfl
  | cons q t ih =>
    rcases hc : fpClassify q.2 with v | ⟨n0, lib⟩ | n0 | _ <;>
      simp only [FunctionPatcher.usesWrites, List.filterMap_cons, hc] <;>
      rw [List.find?_cons]
    · simp only [hc, show (FpMatch.direct v == FpMatch.use name) = false by simp]
      exact ih
    · simp only [hc, show (FpMatch.assign n0 lib == FpMatch.use name) = false by
        simp]
      exact ih
    · by_cases hn : n0 = name
      · subst hn
        simp only [hc, beq_self_eq_true]
        simp [List.lookup_cons]
      · simp only [hc, show (FpMatch.use n0 == FpMatch.use name) = false by
          simp [hn]]
        have hb : (name == n0) = false := by
          simp [beq_iff_eq]; exact fun hcn => hn hcn.symm
        simp only [List.lookup_cons, hb]
        exact ih
    · simp only [hc, show (FpMatch.nomatch == FpMatch.use name) = false by simp]
      exact ih

theorem scan_uses_lookup (hp : NativeSchema) (lines : List String)
    (name : String) :
    List.lookup name (FunctionPatcher.scan hp lines).uses =
      (lines.enum.reverse.find? (fun p => fpClassify p.2 == FpMatch.use name)).map
        (fun p => (p.2, p.1)) := by
  rw [FunctionPatcher.scan_uses, lookup_foldl_odUpdate]
  have h1 : (FunctionPatcher.usesWrites lines.enum).reverse =
      FunctionPatcher.usesWrites lines.enum.reverse := by
    rw [FunctionPatcher.usesWrites, FunctionPatcher.usesWrites,
      List.filterMap_reverse]
  rw [h1, lookup_usesWrites]
  rcases h : (lines.enum.reverse.find?
      (fun p => fpClassify p.2 == FpMatch.use name)) with _ | p <;> simp [h]

theorem lookup_eq_of_mem_nodup {α : Type} (m : List (String × α)) (k : String)
    (v : α) (hnd : (m.map Prod.fst).Nodup) (hm : (k, v) ∈ m) :
    List.lookup k m = some v := by
  induction m with
  | nil => simp at hm
  | cons e t ih =>
    obtain ⟨k0, v0⟩ := e
    simp only [List.map_cons, List.nodup_cons] at hnd
    rcases List.mem_cons.1 hm with heq | hmem
    · cases heq
      simp [List.lookup_cons]
    · by_cases hk : k = k0
      · subst hk
        exact absurd (List.mem_map_of_mem Prod.fst hmem) hnd.1
      · have hb : (k == k0) = false := by simp [beq_iff_eq]; exact hk
        simp only [List.lookup_cons, hb]
        exact ih hnd.2 hmem

/-- C10: the uses table holds, for each indirection field, exactly the
last-scanned use site; when a field is used on an earlier line too, the
recorded site has the later index and the pass inserts nothing at the
earlier use line. -/
theorem c10_last_use_site_wins (hp : NativeSchema) (lines : List String)
    (name : String) (i j : Nat) (l m : String)
    (hl : lines[i]? = some l) (hcl : fpClassify l = FpMatch.use name)
    (hm : lines[j]? = some m) (hcm : fpClassify m = FpMatch.use name)
    (hij : i < j) :
    List.lookup name (FunctionPatcher.scan hp lines).uses =
      (lines.enum.reverse.find? (fun p => fpClassify p.2 == FpMatch.use name)).map
        (fun p => (p.2, p.1)) ∧
    (∀ p, List.lookup name (FunctionPatcher.scan hp lines).uses = some p →
      i < p.2) ∧
    insertsAt (FunctionPatcher.run hp lines).edits i = [] := by
  have hlater : ∀ p,
      List.lookup name (FunctionPatcher.scan hp lines).uses = some p →
        i < p.2 := by
    intro p hp2
    rw [scan_uses_lookup] at hp2
    rcases hfind : lines.enum.reverse.find?
        (fun p => fpClassify p.2 == FpMatch.use name) with _ | q
    · rw [hfind] at hp2
      simp at hp2
    · rw [hfind] at hp2
      have hqp : (q.2, q.1) = p := by simpa using hp2
      cases hqp
      obtain ⟨hq, as, bs, hsplit, hfail⟩ := List.find?_eq_some.1 hfind
      have hjmem : (j, m) ∈ lines.enum.reverse := by
        rw [List.mem_reverse]
        exact List.mem_enum_iff_getElem?.2 hm
      rw [hsplit] at hjmem
      have hjq : j ≤ q.1 := by
        rcases List.mem_append.1 hjmem with hin | hin
        · exfalso
          have := hfail (j, m) hin
          simp [hcm] at this
        · rcases List.mem_cons.1 hin with heq | hin2
          · rw [← heq]
          · have hsplit2 : lines.enum = bs.reverse ++ q :: as.reverse := by
              have := congrArg List.reverse hsplit
              simpa [List.reverse_append] using this
            have := enum_fst_lt lines bs.reverse (as.reverse) q hsplit2 (j, m)
              (by simpa using hin2)
            omega
      omega
  refine ⟨scan_uses_lookup hp lines name, hlater, ?_⟩
  have hnotdir : insertsAt (FunctionPatcher.lineEdits hp l i) i = [] := by
    rw [FunctionPatcher.lineEdits, hcl]
    rfl
  rw [FunctionPatcher.run, FunctionPatcher.finish_edits]
  obtain ⟨he, _, _⟩ := FunctionPatcher.finishLoop_decomp hp
    (FunctionPatcher.scan hp lines).uses (FunctionPatcher.scan hp lines)
    (FunctionPatcher.scan_uses_nodup hp lines)
  rw [he, insertsAt_append,
    FunctionPatcher.scan_insertsAt hp lines i l hl, hnotdir,
    List.nil_append, insertsAt_flatMap]
  refine flatMap_eq_nil_of_forall _ _ fun u hu => ?_
  refine insertsAt_eq_nil_of_ne _ _ fun e he2 => ?_
  obtain ⟨ls, hls⟩ := FunctionPatcher.useEdits_all_insert hp u.1 u.2.1 u.2.2 _ e he2
  subst hls
  simp only [editIndex]
  intro hc
  obtain ⟨hv1, hv2⟩ := FunctionPatcher.scan_uses_valid hp lines u hu
  rw [hc, hl] at hv1
  cases hv1
  have hunm : u.1 = name := by
    rw [hcl] at hv2
    cases hv2
    rfl
  have hlu : List.lookup u.1 (FunctionPatcher.scan hp lines).uses =
      some u.2 :=
    lookup_eq_of_mem_nodup _ u.1 u.2
      (FunctionPatcher.scan_uses_nodup hp lines) (by simpa using hu)
  rw [hunm] at hlu
  have := hlater u.2 hlu
  omega


/-- C10 witness: the same indirection field invoked on two lines; the
earlier use line receives no insert. -/
theorem c10_last_use_site_wins_witness :
    fpClassify "    type(self)._foo_function(a)" = FpMatch.use "_foo_function" ∧
    fpClassify "    type(self)._foo_function(b)" = FpMatch.use "_foo_function" ∧
    insertsAt (FunctionPatcher.run hpColor
      ["    type(self)._foo_function(a)",
       "    type(self)._foo_function(b)"]).edits 0 = [] :=
  ⟨rfl, rfl,
    (c10_last_use_site_wins hpColor
      ["    type(self)._foo_function(a)",
       "    type(self)._foo_function(b)"]
      "_foo_function" 0 1
      "    type(self)._foo_function(a)" "    type(self)._foo_function(b)"
      rfl rfl rfl rfl (by decide)).2.2⟩

/-! ## C3: indirection fields after the scan -/

theorem ne_of_data_get (s t : String) (k : Nat)
    (h : s.data[k]? ≠ t.data[k]?) : s ≠ t := by
  intro hc
  subst hc
  exact h rfl

theorem data_concat_get_left (c x : String) (k : Nat)
    (h : k < c.data.length) : (c ++ x).data[k]? = c.data[k]? := by
  rw [String.data_append]
  exact List.getElem?_append_left h

theorem data_concat_get_right (c x : String) (k : Nat) :
    (c ++ x).data[c.data.length + k]? = x.data[k]? := by
  rw [String.data_append]
  rw [List.getElem?_append_right (by omega)]
  congr 1
  omega

theorem concat_left_cancel_ne (c x y : String) (h : x ≠ y) :
    c ++ x ≠ c ++ y := by
  intro hc
  apply h
  have := congrArg String.data hc
  rw [String.data_append, String.data_append] at this
  have := List.append_cancel_left this
  cases x
  cases y
  exact congrArg String.mk this

/-- Indirection-field names captured by the assignment recognizer start with
an underscore. -/
theorem tryAssignAt_head (l : List Char) (n lib : String)
    (h : tryAssignAt l = some (n, lib)) : n.data.take 1 = ['_'] := by
  have hrun : ∀ rest : List Char,
      (('_' :: rest).takeWhile isWordChar).take 1 = ['_'] := by
    intro rest
    rw [List.takeWhile_cons]
    simp [isWordChar]
  unfold tryAssignAt at h
  split at h
  · rename_i c rest
    dsimp only [] at h
    split at h
    · split at h <;> try simp at h
      split at h <;> try simp at h
      split at h <;> try simp at h
      obtain ⟨h1, _⟩ := h
      rw [← h1]
      exact hrun rest
    · simp at h
  · simp at h

theorem searchAux_spec {α : Type} (f : List Char → Option α) (P : α → Prop)
    (hf : ∀ l a, f l = some a → P a) :
    ∀ (l : List Char) (a : α), searchAux f l = some a → P a := by
  intro l
  induction l with
  | nil =>
    intro a h
    rw [searchAux] at h
    exact hf [] a h
  | cons c t ih =>
    intro a h
    rw [searchAux] at h
    rcases hfl : f (c :: t) with _ | b
    · rw [hfl] at h
      exact ih a h
    · rw [hfl] at h
      cases h
      exact hf _ _ hfl

theorem matchAssign_head (line : String) (n lib : String)
    (h : matchAssign line = some (n, lib)) : n.data.take 1 = ['_'] := by
  rw [matchAssign] at h
  exact searchAux_spec tryAssignAt (fun a => a.1.data.take 1 = ['_'])
    (fun l a ha => by
      obtain ⟨a1, a2⟩ := a
      exact tryAssignAt_head l a1 a2 ha) line.data (n, lib) h

theorem fpClassify_assign (l : String) (n lib : String)
    (h : fpClassify l = FpMatch.assign n lib) :
    matchAssign l = some (n, lib) := by
  rw [fpClassify] at h
  rcases h1 : matchDirectCall l with _ | v
  · rw [h1] at h
    rcases h2 : matchAssign l with _ | p
    · rw [h2] at h
      rcases h3 : matchUse l with _ | u <;> rw [h3] at h <;> cases h
    · rw [h2] at h
      obtain ⟨p1, p2⟩ := p
      cases h
      rfl
  · rw [h1] at h
    cases h

theorem entry_odAppend_key {α : Type} (m : List (String × List α)) (k : String)
    (v : α) (e : String × List α) (h : e ∈ odAppend m k v) :
    e ∈ m ∨ e.1 = k := by
  induction m with
  | nil =>
    simp [odAppend] at h
    subst h
    exact Or.inr rfl
  | cons e0 t ih =>
    obtain ⟨k0, vs0⟩ := e0
    by_cases he : k0 = k
    · subst he
      simp [odAppend] at h
      rcases h with h | h
      · subst h
        exact Or.inr rfl
      · exact Or.inl (by simp [h])
    · simp [odAppend, he] at h
      rcases h with h | h
      · exact Or.inl (by simp [h])
      · rcases ih h with h2 | h2
        · exact Or.inl (by simp [h2])
        · exact Or.inr h2

theorem entry_foldl_odAppend_key {α : Type} :
    ∀ (ws : List (String × α)) (m0 : List (String × List α))
      (e : String × List α),
      e ∈ ws.foldl (fun m w => odAppend m w.1 w.2) m0 →
      e ∈ m0 ∨ ∃ w ∈ ws, e.1 = w.1 := by
  intro ws
  induction ws with
  | nil => intro m0 e h; exact Or.inl h
  | cons w t ih =>
    intro m0 e h
    rw [List.foldl_cons] at h
    rcases ih _ e h with h2 | ⟨w2, hw2, he2⟩
    · rcases entry_odAppend_key _ _ _ e h2 with h3 | h3
      · exact Or.inl h3
      · exact Or.inr ⟨w, by simp, h3⟩
    · exact Or.inr ⟨w2, List.mem_cons_of_mem _ hw2, he2⟩

theorem assignsWrites_head (hp : NativeSchema) (ps : List (Nat × String))
    (w : String × String) (hw : w ∈ FunctionPatcher.assignsWrites hp ps) :
    w.1.data.take 1 = ['_'] := by
  rcases List.mem_filterMap.1 hw with ⟨p, hpm, hpe⟩
  rcases hc : fpClassify p.2 with v | ⟨n0, lib0⟩ | n0 | _ <;> simp [hc] at hpe
  obtain ⟨_, h2⟩ := hpe
  rw [← h2]
  exact matchAssign_head p.2 n0 lib0 (fpClassify_assign p.2 n0 lib0 hc)

theorem scan_assigns_head (hp : NativeSchema) (lines : List String) :
    ∀ e ∈ (FunctionPatcher.scan hp lines).assigns, e.1.data.take 1 = ['_'] := by
  intro e he
  rw [FunctionPatcher.scan, FunctionPatcher.foldl_step_assigns] at he
  rcases entry_foldl_odAppend_key _ _ e he with h | ⟨w, hw, hew⟩
  · simp [FunctionPatcher.initState] at h
  · rw [hew]
    exact assignsWrites_head hp _ w hw

theorem entry_odPop {α : Type} (m : List (String × α)) (k : String)
    (e : String × α) (h : e ∈ (odPop m k).2) : e ∈ m := by
  induction m with
  | nil => simp [odPop] at h
  | cons e0 t ih =>
    obtain ⟨k0, v0⟩ := e0
    by_cases he : k0 = k
    · subst he
      simp [odPop] at h
      exact List.mem_cons_of_mem _ h
    · simp [odPop, he] at h
      rcases h with h | h
      · simp [h]
      · exact List.mem_cons_of_mem _ (ih h)

theorem entry_foldl_odPop {α : Type} :
    ∀ (us : List (String × String × Nat)) (A : List (String × α))
      (e : String × α),
      e ∈ us.foldl (fun a u => (odPop a u.1).2) A → e ∈ A := by
  intro us
  induction us with
  | nil => intro A e h; exact h
  | cons u t ih =>
    intro A e h
    rw [List.foldl_cons] at h
    exact entry_odPop _ _ _ (ih _ e h)

theorem count_flatMap_str {α : Type} (a : String) (ps : List α)
    (g : α → List String) :
    (ps.flatMap g).count a = (ps.map (fun p => (g p).count a)).sum := by
  induction ps with
  | nil => rfl
  | cons p t ih =>
    rw [List.flatMap_cons, List.count_append, List.map_cons, List.sum_cons, ih]

theorem sum_map_eq_single {α : Type} [DecidableEq α] (ps : List α)
    (f : α → Nat) (p0 : α) (h1 : ∀ p ∈ ps, p ≠ p0 → f p = 0)
    (h2 : ps.count p0 = 1) : (ps.map f).sum = f p0 := by
  induction ps with
  | nil => simp at h2
  | cons a t ih =>
    by_cases ha : a = p0
    · subst ha
      rw [List.count_cons_self] at h2
      have hnot : a ∉ t := by
        rw [← List.count_pos_iff]
        omega
      have hz : ∀ p ∈ t, f p = 0 := fun p hpm =>
        h1 p (List.mem_cons_of_mem _ hpm) (fun hc => hnot (hc ▸ hpm))
      have : (t.map f).sum = 0 := by
        rw [List.sum_eq_zero_iff]
        intro x hx
        rcases List.mem_map.1 hx with ⟨p, hpm, hpe⟩
        rw [← hpe]
        exact hz p hpm
      simp [this]
    · rw [List.map_cons, List.sum_cons, h1 a (by simp) ha, Nat.zero_add]
      refine ih (fun p hpm hne => h1 p (List.mem_cons_of_mem _ hpm) hne) ?_
      rwa [List.count_cons_of_ne (fun hc => ha hc.symm)] at h2

theorem lineDiags_shape (hp : NativeSchema) (l d : String)
    (h : d ∈ FunctionPatcher.lineDiags hp l) :
    ∃ x, d = "ERROR: unknown C function " ++ x := by
  rw [FunctionPatcher.lineDiags] at h
  rcases hc : fpClassify l with v | ⟨n0, lib0⟩ | n0 | _ <;> rw [hc] at h <;>
    dsimp only [] at h
  · rcases hl : List.lookup v hp.functions with _ | sig <;> rw [hl] at h <;>
      simp at h
    exact ⟨v, h⟩
  · rcases hl : List.lookup lib0 hp.functions with _ | sig <;> rw [hl] at h <;>
      simp at h
    exact ⟨lib0, h⟩
  · simp at h
  · simp at h

theorem insertsAt_map_insert {α : Type} (L : List α) (i : Nat)
    (f : α → String) :
    insertsAt (L.map fun a => Edit.insert i [f a]) i = L.map f := by
  induction L with
  | nil => rfl
  | cons a t ih =>
    simp only [List.map_cons]
    rw [show (Edit.insert i [f a] :: t.map fun a => Edit.insert i [f a]) =
      [Edit.insert i [f a]] ++ t.map fun a => Edit.insert i [f a] from rfl]
    rw [insertsAt_append, ih]
    simp [insertsAt]

theorem getq_zero_of_take_one (l : List Char) (c : Char)
    (h : l.take 1 = [c]) : l[0]? = some c ∧ 1 ≤ l.length := by
  rcases l with _ | ⟨d, t⟩
  · simp at h
  · simp at h
    simp [h]

theorem concat_left_cancel_eq (c x y : String) (h : c ++ x = c ++ y) :
    x = y := by
  have h1 := congrArg String.data h
  rw [String.data_append, String.data_append] at h1
  have h2 := List.append_cancel_left h1
  cases x
  cases y
  exact congrArg String.mk h2

/-- C3: after the scan, every recorded use site gets either one
no-assignments fix-me (plus exactly one ERROR diagnostic) or one signature
comment per assigned symbol in assignment order; fields assigned but never
used get a diagnostic only, and the post-scan phase inserts lines only at
recorded use sites. -/
theorem c3_indirection_fields (hp : NativeSchema) (lines : List String) :
    ((FunctionPatcher.run hp lines).edits =
      (FunctionPatcher.scan hp lines).edits ++
        (FunctionPatcher.scan hp lines).uses.flatMap (fun u =>
          FunctionPatcher.useEdits hp u.1 u.2.1 u.2.2
            ((List.lookup u.1 (FunctionPatcher.scan hp lines).assigns).getD []))) ∧
    (∀ n l i, (n, l, i) ∈ (FunctionPatcher.scan hp lines).uses →
      (List.lookup n (FunctionPatcher.scan hp lines).assigns).getD [] = [] →
      insertsAt (FunctionPatcher.run hp lines).edits i =
        [indentOf l ++ "# FIXME: There are no assignments to class field " ++ n] ∧
      (FunctionPatcher.run hp lines).diags.count
        ("ERROR: There are no assignments to class field " ++ n) = 1) ∧
    (∀ n l i L, (n, l, i) ∈ (FunctionPatcher.scan hp lines).uses →
      (List.lookup n (FunctionPatcher.scan hp lines).assigns).getD [] = L →
      L ≠ [] →
      insertsAt (FunctionPatcher.run hp lines).edits i =
        L.map (fun ln => indentOf l ++ "# H: " ++
          stripSemis ((List.lookup ln hp.functions).getD ""))) ∧
    (∀ n L, List.lookup n (FunctionPatcher.scan hp lines).assigns = some L →
      (∀ u ∈ (FunctionPatcher.scan hp lines).uses, u.1 ≠ n) →
      ("ERROR: " ++ n ++ " assigned a value but it is never used") ∈
        (FunctionPatcher.run hp lines).diags) := by
  have hnd := FunctionPatcher.scan_uses_nodup hp lines
  have hndE : (FunctionPatcher.scan hp lines).uses.Nodup := hnd.of_map Prod.fst
  obtain ⟨hFLe, hFLd, _⟩ := FunctionPatcher.finishLoop_decomp hp
    (FunctionPatcher.scan hp lines).uses (FunctionPatcher.scan hp lines) hnd
  have hEdits : (FunctionPatcher.run hp lines).edits =
      (FunctionPatcher.scan hp lines).edits ++
        (FunctionPatcher.scan hp lines).uses.flatMap (fun u =>
          FunctionPatcher.useEdits hp u.1 u.2.1 u.2.2
            ((List.lookup u.1 (FunctionPatcher.scan hp lines).assigns).getD [])) := by
    rw [FunctionPatcher.run, FunctionPatcher.finish_edits]
    exact hFLe
  have hUniq : ∀ u ∈ (FunctionPatcher.scan hp lines).uses,
      ∀ w ∈ (FunctionPatcher.scan hp lines).uses, u.1 = w.1 → u = w := by
    intro u hu w hw heq
    have h1 : List.lookup u.1 (FunctionPatcher.scan hp lines).uses =
        some u.2 := lookup_eq_of_mem_nodup _ u.1 u.2 hnd (by simpa using hu)
    have h2 : List.lookup w.1 (FunctionPatcher.scan hp lines).uses =
        some w.2 := lookup_eq_of_mem_nodup _ w.1 w.2 hnd (by simpa using hw)
    rw [← heq] at h2
    rw [h1] at h2
    exact Prod.ext heq (Option.some.inj h2)
  have hInsAt : ∀ n l i, (n, l, i) ∈ (FunctionPatcher.scan hp lines).uses →
      insertsAt (FunctionPatcher.run hp lines).edits i =
        insertsAt (FunctionPatcher.useEdits hp n l i
          ((List.lookup n (FunctionPatcher.scan hp lines).assigns).getD [])) i := by
    intro n l i hmem
    obtain ⟨hl, hcls⟩ :=
      FunctionPatcher.scan_uses_valid hp lines (n, l, i) hmem
    rw [hEdits, insertsAt_append,
      FunctionPatcher.scan_insertsAt hp lines i l hl]
    have hz : insertsAt (FunctionPatcher.lineEdits hp l i) i = [] := by
      rw [FunctionPatcher.lineEdits, hcls]
      rfl
    rw [hz, List.nil_append, insertsAt_flatMap]
    rw [flatMap_eq_single (FunctionPatcher.scan hp lines).uses _ (n, l, i)
      ?_ (List.count_eq_one_of_mem hndE hmem)]
    intro u hu hne
    by_cases hidx : u.2.2 = i
    · exfalso
      obtain ⟨hvl, hvc⟩ := FunctionPatcher.scan_uses_valid hp lines u hu
      rw [hidx, hl] at hvl
      have hl2 : l = u.2.1 := Option.some.inj hvl
      rw [← hl2, hcls] at hvc
      have hun : u.1 = n := (FpMatch.use.inj hvc).symm
      exact hne (hUniq u hu (n, l, i) hmem (by simpa using hun))
    · refine insertsAt_eq_nil_of_ne _ _ fun e he2 => ?_
      obtain ⟨ls, hls⟩ := FunctionPatcher.useEdits_all_insert hp u.1 u.2.1
        u.2.2 _ e he2
      subst hls
      simpa [editIndex] using hidx
  have hDiags : (FunctionPatcher.run hp lines).diags =
      (lines.enum.flatMap (fun p => FunctionPatcher.lineDiags hp p.2)) ++
      ((FunctionPatcher.scan hp lines).uses.flatMap (fun u =>
        FunctionPatcher.useDiags u.1
          ((List.lookup u.1 (FunctionPatcher.scan hp lines).assigns).getD []))) ++
      (((FunctionPatcher.scan hp lines).uses.foldl
          (fun a u => (odPop a u.1).2)
          (FunctionPatcher.scan hp lines).assigns).map fun p =>
        "ERROR: " ++ p.1 ++ " assigned a value but it is never used") ++
      ["Validated " ++ toString (FunctionPatcher.finishLoop hp
          (FunctionPatcher.scan hp lines)
          (FunctionPatcher.scan hp lines).uses).count ++
        " C function calls"] ++
      [FunctionPatcher.notUsingMsg hp (FunctionPatcher.finishLoop hp
          (FunctionPatcher.scan hp lines)
          (FunctionPatcher.scan hp lines).uses).detected] := by
    rw [FunctionPatcher.run, FunctionPatcher.finish_diags, hFLd,
      FunctionPatcher.finishLoop_assigns]
    have hscand : (FunctionPatcher.scan hp lines).diags =
        lines.enum.flatMap (fun p => FunctionPatcher.lineDiags hp p.2) := by
      rw [FunctionPatcher.scan, FunctionPatcher.foldl_step_diags]
      rfl
    rw [hscand]
  refine ⟨hEdits, ?_, ?_, ?_⟩
  · -- (a) no assignments recorded
    intro n l i hmem hempty
    constructor
    · rw [hInsAt n l i hmem, hempty]
      rw [FunctionPatcher.useEdits]
      simp [insertsAt]
    · have hmsg7 :
          ("ERROR: There are no assignments to class field " ++ n).data[7]? =
            some 'T' := by
        rw [data_concat_get_left _ _ 7 (by decide)]
        decide
      rw [hDiags]
      rw [List.count_append, List.count_append, List.count_append,
        List.count_append]
      have hc1 : (lines.enum.flatMap
          (fun p => FunctionPatcher.lineDiags hp p.2)).count
            ("ERROR: There are no assignments to class field " ++ n) = 0 := by
        rw [List.count_eq_zero]
        intro hcmem
        rcases List.mem_flatMap.1 hcmem with ⟨p, _, hd⟩
        obtain ⟨x, hx⟩ := lineDiags_shape hp p.2 _ hd
        rw [hx, data_concat_get_left _ _ 7 (by decide)] at hmsg7
        simp at hmsg7
      have hc2 : ((FunctionPatcher.scan hp lines).uses.flatMap (fun u =>
          FunctionPatcher.useDiags u.1
            ((List.lookup u.1 (FunctionPatcher.scan hp lines).assigns).getD []))).count
            ("ERROR: There are no assignments to class field " ++ n) = 1 := by
        rw [count_flatMap_str]
        rw [sum_map_eq_single _ _ (n, l, i) ?_
          (List.count_eq_one_of_mem hndE hmem)]
        · rw [hempty, FunctionPatcher.useDiags]
          simp
        · intro u hu hne
          by_cases hun : u.1 = n
          · exact absurd (hUniq u hu (n, l, i) hmem (by simpa using hun)) hne
          · rw [FunctionPatcher.useDiags]
            by_cases hE :
                ((List.lookup u.1
                  (FunctionPatcher.scan hp lines).assigns).getD []).isEmpty = true
            · rw [if_pos hE, List.count_eq_zero]
              intro hcm
              simp at hcm
              exact hun (concat_left_cancel_eq _ _ _ hcm.symm)
            · rw [if_neg hE]
              rfl
      have hc3 : ((((FunctionPatcher.scan hp lines).uses.foldl
          (fun a u => (odPop a u.1).2)
          (FunctionPatcher.scan hp lines).assigns).map fun p =>
            "ERROR: " ++ p.1 ++ " assigned a value but it is never used")).count
            ("ERROR: There are no assignments to class field " ++ n) = 0 := by
        rw [List.count_eq_zero]
        intro hcmem
        rcases List.mem_map.1 hcmem with ⟨e, hemem, heq⟩
        have hhead := scan_assigns_head hp lines e
          (entry_foldl_odPop _ _ _ hemem)
        obtain ⟨hget, hlen⟩ := getq_zero_of_take_one e.1.data '_' hhead
        have h7 :
            (("ERROR: " ++ e.1) ++
              " assigned a value but it is never used").data[7]? =
              some '_' := by
          rw [data_concat_get_left _ _ 7 (by
            rw [String.data_append, List.length_append,
              show ("ERROR: ").data.length = 7 from by decide]
            omega)]
          rw [show (7 : Nat) = ("ERROR: ").data.length + 0 from by decide]
          rw [data_concat_get_right]
          simpa using hget
        rw [show "ERROR: " ++ e.1 ++ " assigned a value but it is never used" =
          ("ERROR: " ++ e.1) ++ " assigned a value but it is never used"
          from rfl] at heq
        rw [heq] at h7
        rw [hmsg7] at h7
        simp at h7
      have hc4 : (["Validated " ++ toString (FunctionPatcher.finishLoop hp
          (FunctionPatcher.scan hp lines)
          (FunctionPatcher.scan hp lines).uses).count ++
            " C function calls"]).count
            ("ERROR: There are no assignments to class field " ++ n) = 0 := by
        rw [List.count_eq_zero]
        intro hcmem
        simp at hcmem
        have h0 : (("Validated " ++ toString (FunctionPatcher.finishLoop hp
            (FunctionPatcher.scan hp lines)
            (FunctionPatcher.scan hp lines).uses).count) ++
              " C function calls").data[0]? = some 'V' := by
          rw [data_concat_get_left _ _ 0 (by
            rw [String.data_append, List.length_append,
              show ("Validated ").data.length = 10 from by decide]
            omega)]
          rw [data_concat_get_left _ _ 0 (by decide)]
          decide
        rw [show "Validated " ++ toString (FunctionPatcher.finishLoop hp
            (FunctionPatcher.scan hp lines)
            (FunctionPatcher.scan hp lines).uses).count ++
              " C function calls" =
            ("Validated " ++ toString (FunctionPatcher.finishLoop hp
            (FunctionPatcher.scan hp lines)
            (FunctionPatcher.scan hp lines).uses).count) ++
              " C function calls" from rfl] at hcmem
        rw [← hcmem] at h0
        rw [data_concat_get_left _ _ 0 (by decide)] at h0
        simp at h0
      have hc5 : ([FunctionPatcher.notUsingMsg hp (FunctionPatcher.finishLoop hp
          (FunctionPatcher.scan hp lines)
          (FunctionPatcher.scan hp lines).uses).detected]).count
            ("ERROR: There are no assignments to class field " ++ n) = 0 := by
        rw [List.count_eq_zero]
        intro hcmem
        simp at hcmem
        have h0 : (FunctionPatcher.notUsingMsg hp (FunctionPatcher.finishLoop hp
            (FunctionPatcher.scan hp lines)
            (FunctionPatcher.scan hp lines).uses).detected).data[0]? =
            some 'N' := by
          rw [FunctionPatcher.notUsingMsg]
          rw [data_concat_get_left _ _ 0 (by
            rw [String.data_append, List.length_append,
              show ("Not using ").data.length = 10 from by decide]
            omega)]
          rw [data_concat_get_left _ _ 0 (by decide)]
          decide
        rw [← hcmem] at h0
        rw [data_concat_get_left _ _ 0 (by decide)] at h0
        simp at h0
      rw [hc1, hc2, hc3, hc4, hc5]
  · -- (b) assigned symbols annotated in order at the use site
    intro n l i L hmem hL hne
    rw [hInsAt n l i hmem, hL]
    rw [FunctionPatcher.useEdits]
    rw [if_neg (by simpa [List.isEmpty_iff] using hne)]
    exact insertsAt_map_insert L i _
  · -- (c) assigned but never used: diagnostic, no insertion point
    intro n L hlook hnuse
    have hnotmem : n ∉ (FunctionPatcher.scan hp lines).uses.map Prod.fst := by
      intro hcm
      rcases List.mem_map.1 hcm with ⟨u, hu, hue⟩
      exact hnuse u hu hue
    have hl1 : List.lookup n ((FunctionPatcher.scan hp lines).uses.foldl
        (fun a u => (odPop a u.1).2)
        (FunctionPatcher.scan hp lines).assigns) = some L := by
      rw [FunctionPatcher.lookup_foldl_odPop_not_mem _ _ _ hnotmem]
      exact hlook
    have hmem2 := mem_of_lookup _ _ _ hl1
    rw [hDiags]
    refine List.mem_append.2 (Or.inl ?_)
    refine List.mem_append.2 (Or.inl ?_)
    refine List.mem_append.2 (Or.inr ?_)
    exact List.mem_map.2 ⟨(n, L), hmem2, rfl⟩


/-- C3 witness: a single use of an indirection field that was never
assigned. -/
theorem c3_indirection_fields_witness :
    insertsAt (FunctionPatcher.run hpColor
      ["    type(self)._poll_function(a)"]).edits 0 =
      ["    # FIXME: There are no assignments to class field _poll_function"] ∧
    (FunctionPatcher.run hpColor
      ["    type(self)._poll_function(a)"]).diags.count
      "ERROR: There are no assignments to class field _poll_function" = 1 :=
  (c3_indirection_fields hpColor ["    type(self)._poll_function(a)"]).2.1
    "_poll_function" "    type(self)._poll_function(a)" 0 (by decide) (by decide)

/-- C5 (counterexample): on a struct literal spanning exactly 3 lines that
assigns only `r` and `g`, the struct-literal pass takes the triplet
fast-path (it only appends a comma to the middle line and asks for a rerun):
the output contains no field-listing comment, no fix-me and no "not used"
line, contradicting the claimed expected output. -/
theorem c5_three_line_literal_not_validated :
    StructPatcher.output hpColor colorLiteral3 =
      some ["c = new_struct_p(",
        "    \"WGPUColor *\", r=0.5, g=0.5,",
        ")"] ∧
    ((StructPatcher.output hpColor colorLiteral3).getD []).countP isHLine = 0 ∧
    ((StructPatcher.output hpColor colorLiteral3).getD []).countP isNotUsedLine = 0 ∧
    (StructPatcher.run hpColor colorLiteral3).map StructPatcher.State.diags =
      some ["Notice: made a struct multiline. Rerun codegen to validate the struct.",
        "Validated 1 C structs"] := by
  refine ⟨rfl, rfl, rfl, rfl⟩

/-- C5 (amended): with the literal block-formatted (5 lines, one field per
line), the pass inserts the field-listing comment, emits zero fix-me lines,
and inserts exactly two "not used" lines, for `b` and for `a`. -/
theorem c5_block_formatted_literal_validated :
    StructPatcher.output hpColor colorLiteral5 =
      some ["# H: r: float, g: float, b: float, a: float",
        "c = new_struct_p(",
        "    \"WGPUColor *\",",
        "    r=0.5,",
        "    g=0.5,",
        "    # not used: b",
        "    # not used: a",
        ")"] ∧
    ((StructPatcher.output hpColor colorLiteral5).getD []).countP isHLine = 1 ∧
    ((StructPatcher.output hpColor colorLiteral5).getD []).countP isFixmeLine = 0 ∧
    ((StructPatcher.output hpColor colorLiteral5).getD []).filter isNotUsedLine =
      ["    # not used: b", "    # not used: a"] := by
  refine ⟨rfl, rfl, rfl, rfl⟩

/-! ## C4: full validation of a struct-literal span with a known struct -/

theorem isHLine_indent (l s : String) : isHLine (indentOf l ++ s) = isHLine s := by
  unfold isHLine
  rw [pyLStrip_indent]

/-- Variant of `startsWith_lstrip_indent_concat` that also covers a
constant part starting with spaces. -/
theorem startsWith_lstrip_indent_concat2 (l c v pre : String)
    (hcne : (c.data.dropWhile isPySpace).isEmpty = false)
    (hlen : pre.data.length ≤ (c.data.dropWhile isPySpace).length) :
    pyStartsWith (pyLStrip ((indentOf l ++ c) ++ v)) pre =
      pre.data.isPrefixOf (c.data.dropWhile isPySpace) := by
  unfold pyStartsWith
  rw [pyLStrip_data, String.data_append, String.data_append]
  have hind : (indentOf l).data =
      List.replicate (l.data.takeWhile isPySpace).length ' ' := rfl
  rw [hind, List.append_assoc, dropWhile_replicate_space,
    List.dropWhile_append, hcne]
  simp only [Bool.false_eq_true, if_false]
  exact isPrefixOf_append_left _ _ _ hlen

theorem isHLine_h (l v : String) :
    isHLine (indentOf l ++ "# H: " ++ v) = true := by
  unfold isHLine
  rw [startsWith_lstrip_indent_concat2 l "# H: " v "# H:" (by decide) (by decide)]
  decide

theorem isHLine_keyfix (l sn k : String) :
    isHLine (indentOf l ++ "# FIXME: unknown C struct field " ++ sn ++ "." ++ k) =
      false := by
  rw [String.append_assoc, String.append_assoc]
  unfold isHLine
  rw [startsWith_lstrip_indent_concat2 l "# FIXME: unknown C struct field "
    (sn ++ ("." ++ k)) "# H:" (by decide) (by decide)]
  decide

theorem isHLine_notused (l v : String) :
    isHLine (indentOf l ++ "    # not used: " ++ v) = false := by
  unfold isHLine
  rw [startsWith_lstrip_indent_concat2 l "    # not used: " v "# H:"
    (by decide) (by decide)]
  decide

theorem isHLine_ptrfix_p (l : String) :
    isHLine (indentOf l ++ "# FIXME: invalid C struct, use new_struct_p()") =
      false := by
  rw [isHLine_indent]
  decide

theorem isHLine_ptrfix_np (l : String) :
    isHLine (indentOf l ++ "# FIXME: invalid C struct, use new_struct()") =
      false := by
  rw [isHLine_indent]
  decide

theorem insertsAt_single_insert (j : Nat) (ls : List String) (k : Nat) :
    insertsAt [Edit.insert j ls] k = if j = k then ls else [] := by
  simp [insertsAt]

theorem vsPtrEdits_index (o : List String) (i1 i2 : Nat) :
    ∀ e ∈ StructPatcher.vsPtrEdits o i1 i2, editIndex e = i1 := by
  intro e he
  unfold StructPatcher.vsPtrEdits at he
  split at he
  · split at he
    · simp at he
    · simp only [List.mem_singleton] at he
      subst he
      rfl
  · split at he
    · simp only [List.mem_singleton] at he
      subst he
      rfl
    · simp at he

theorem insertsAt_vsPtrEdits_filter (o : List String) (i1 i2 k : Nat) :
    (insertsAt (StructPatcher.vsPtrEdits o i1 i2) k).filter isHLine = [] := by
  unfold StructPatcher.vsPtrEdits
  split
  · split
    · rfl
    · rw [insertsAt_single_insert]
      split
      · simp [StructPatcher.vsIndent, isHLine_ptrfix_p]
      · rfl
  · split
    · rw [insertsAt_single_insert]
      split
      · simp [StructPatcher.vsIndent, isHLine_ptrfix_np]
      · rfl
    · rfl

theorem vsKeyEditAt_index (o : List String) (i1 i2 : Nat)
    (fields : List (String × String)) (j : Nat) :
    ∀ e ∈ StructPatcher.vsKeyEditAt o i1 i2 fields j, editIndex e = i1 + j := by
  intro e he
  unfold StructPatcher.vsKeyEditAt at he
  rcases hpk : StructPatcher.parseKey ((StructPatcher.spanLines o i1 i2).getD j "")
    with _ | key
  · rw [hpk] at he
    simp at he
  · rw [hpk] at he
    dsimp only at he
    split at he
    · simp at he
    · simp only [List.mem_singleton] at he
      subst he
      rfl

theorem insertsAt_vsKeyEdits_filter (o : List String) (i1 i2 : Nat)
    (fields : List (String × String)) (k : Nat) :
    (insertsAt (StructPatcher.vsKeyEdits o i1 i2 fields) k).filter isHLine = [] := by
  unfold StructPatcher.vsKeyEdits
  rw [insertsAt_flatMap, List.filter_flatMap]
  apply flatMap_eq_nil_of_forall
  intro j hj
  unfold StructPatcher.vsKeyEditAt
  rcases hpk : StructPatcher.parseKey ((StructPatcher.spanLines o i1 i2).getD j "")
    with _ | key
  · rfl
  · dsimp only
    split
    · rfl
    · rw [insertsAt_single_insert]
      split
      · simp [StructPatcher.vsIndent, isHLine_keyfix]
      · rfl

theorem vsNotUsedEdits_index (o : List String) (i1 i2 : Nat)
    (fields : List (String × String)) :
    ∀ e ∈ StructPatcher.vsNotUsedEdits o i1 i2 fields, editIndex e = i2 := by
  intro e he
  unfold StructPatcher.vsNotUsedEdits at he
  split at he
  · simp at he
  · simp only [List.mem_singleton] at he
    subst he
    rfl

theorem insertsAt_vsNotUsedEdits_self (o : List String) (i1 i2 : Nat)
    (fields : List (String × String)) :
    insertsAt (StructPatcher.vsNotUsedEdits o i1 i2 fields) i2 =
      StructPatcher.vsNotUsed o i1 i2 fields := by
  unfold StructPatcher.vsNotUsedEdits
  split
  · rename_i h
    rw [List.isEmpty_iff] at h
    rw [h]
    rfl
  · rw [insertsAt_single_insert, if_pos rfl]

theorem filter_isHLine_vsNotUsed (o : List String) (i1 i2 : Nat)
    (fields : List (String × String)) :
    (StructPatcher.vsNotUsed o i1 i2 fields).filter isHLine = [] := by
  rw [List.filter_eq_nil_iff]
  intro a ha
  unfold StructPatcher.vsNotUsed at ha
  rw [List.mem_filterMap] at ha
  obtain ⟨f, hf, hfa⟩ := ha
  split at hfa
  · simp at hfa
  · have h2 := Option.some.inj hfa
    subst h2
    simp only [StructPatcher.vsIndent, isHLine_notused]
    simp

theorem insertsAt_vsNotUsedEdits_filter (o : List String) (i1 i2 : Nat)
    (fields : List (String × String)) (k : Nat) :
    (insertsAt (StructPatcher.vsNotUsedEdits o i1 i2 fields) k).filter isHLine =
      [] := by
  unfold StructPatcher.vsNotUsedEdits
  split
  · rfl
  · rw [insertsAt_single_insert]
    split
    · exact filter_isHLine_vsNotUsed o i1 i2 fields
    · rfl

/-- C4: a struct-literal span that reaches full validation (at least
3 lines, not caught by a fast-path recovery case) and whose struct name
is declared in the native schema gets exactly one field-listing comment,
scheduled before the span's opening line, listing every declared field
with its native type in declaration order, and no field-listing comment
anywhere else; each interior key that matches a declared field yields no
fix-me and each key absent from the declared fields yields exactly one
fix-me at its own line; and each declared field never referenced by an
interior line yields exactly one not-used comment line inserted just
before the span's closing line. -/
theorem c4_struct_full_validation (hp : NativeSchema) (origLines : List String)
    (i1 i2 : Nat) (fields : List (String × String))
    (hspan : i1 + 2 ≤ i2) (hdoc : i2 < origLines.length)
    (hfast : ¬(i2 = i1 + 2 ∧
      ((StructPatcher.spanLines origLines i1 i2).getD 1 "").data.contains '=' =
        true))
    (hstruct : List.lookup (StructPatcher.vsStructName origLines i1 i2)
      hp.structs = some fields) :
    ∃ es ds,
      StructPatcher.validate_struct hp origLines i1 i2 = some (es, ds) ∧
      (∀ k, (insertsAt es k).filter isHLine =
        if k = i1 then
          [indentOf ((StructPatcher.spanLines origLines i1 i2).getLastD "") ++
            "# H: " ++ joinSep ", " (fields.map fun f => f.1 ++ ": " ++ f.2)]
        else []) ∧
      (∀ j, 2 ≤ j → j + 1 ≤ i2 - i1 →
        insertsAt es (i1 + j) =
          match StructPatcher.parseKey
              ((StructPatcher.spanLines origLines i1 i2).getD j "") with
          | none => []
          | some key =>
            if (List.lookup key fields).isSome then []
            else
              [indentOf
                  ((StructPatcher.spanLines origLines i1 i2).getLastD "") ++
                "# FIXME: unknown C struct field " ++
                stripChars (stripChars
                  (pyStrip ((StructPatcher.spanLines origLines i1 i2).getD 1 ""))
                  [',', '"']) [' ', '*'] ++ "." ++ key]) ∧
      insertsAt es i2 =
        fields.filterMap fun f =>
          if (StructPatcher.spanKeys
              (StructPatcher.spanLines origLines i1 i2)).contains f.1 then none
          else some
            (indentOf ((StructPatcher.spanLines origLines i1 i2).getLastD "") ++
              "    # not used: " ++ f.1) := by
  have hL : (StructPatcher.spanLines origLines i1 i2).length = i2 + 1 - i1 := by
    simp only [StructPatcher.spanLines, List.length_take, List.length_drop]
    omega
  have h1 : ¬ (StructPatcher.spanLines origLines i1 i2).length = 1 := by omega
  have h3 : ¬ (StructPatcher.spanLines origLines i1 i2).length < 3 := by omega
  have h2b : ¬((decide ((StructPatcher.spanLines origLines i1 i2).length = 3) &&
      ((StructPatcher.spanLines origLines i1 i2).getD 1 "").data.contains '=') =
        true) := by
    simp only [Bool.and_eq_true, decide_eq_true_eq]
    rintro ⟨hlen3, hcon⟩
    exact hfast ⟨by omega, hcon⟩
  refine ⟨StructPatcher.vsPtrEdits origLines i1 i2 ++
    [Edit.insert i1 [StructPatcher.vsHLine origLines i1 i2 fields]] ++
    StructPatcher.vsKeyEdits origLines i1 i2 fields ++
    StructPatcher.vsNotUsedEdits origLines i1 i2 fields,
    StructPatcher.vsKeyDiags origLines i1 i2 fields, ?_, ?_, ?_, ?_⟩
  · simp only [StructPatcher.validate_struct]
    rw [if_neg h1, if_neg h2b, if_neg h3, hstruct]
  · intro k
    rw [insertsAt_append, insertsAt_append, insertsAt_append,
      List.filter_append, List.filter_append, List.filter_append,
      insertsAt_vsPtrEdits_filter, insertsAt_vsKeyEdits_filter,
      insertsAt_vsNotUsedEdits_filter, insertsAt_single_insert]
    by_cases hk : i1 = k
    · subst hk
      simp [StructPatcher.vsHLine, StructPatcher.vsIndent, isHLine_h]
    · rw [if_neg hk, if_neg (fun hc => hk hc.symm)]
      simp
  · intro j h2j hj2
    have hA : insertsAt (StructPatcher.vsPtrEdits origLines i1 i2) (i1 + j) =
        [] := by
      apply insertsAt_eq_nil_of_ne
      intro e he
      rw [vsPtrEdits_index origLines i1 i2 e he]
      omega
    have hB : insertsAt
        [Edit.insert i1 [StructPatcher.vsHLine origLines i1 i2 fields]]
        (i1 + j) = [] := by
      rw [insertsAt_single_insert, if_neg (by omega)]
    have hD : insertsAt (StructPatcher.vsNotUsedEdits origLines i1 i2 fields)
        (i1 + j) = [] := by
      apply insertsAt_eq_nil_of_ne
      intro e he
      rw [vsNotUsedEdits_index origLines i1 i2 fields e he]
      omega
    rw [insertsAt_append, insertsAt_append, insertsAt_append, hA, hB, hD,
      List.nil_append, List.nil_append, List.append_nil]
    have hmem : j ∈ List.range' 2
        ((StructPatcher.spanLines origLines i1 i2).length - 3) := by
      rw [List.mem_range'_1]
      omega
    have hoth : ∀ p ∈ List.range' 2
        ((StructPatcher.spanLines origLines i1 i2).length - 3), p ≠ j →
        insertsAt (StructPatcher.vsKeyEditAt origLines i1 i2 fields p)
          (i1 + j) = [] := by
      intro p hp hne
      apply insertsAt_eq_nil_of_ne
      intro e he
      rw [vsKeyEditAt_index origLines i1 i2 fields p e he]
      omega
    unfold StructPatcher.vsKeyEdits
    rw [insertsAt_flatMap, flatMap_eq_single _ _ j hoth
      (List.count_eq_one_of_mem (List.nodup_range' _ _) hmem)]
    unfold StructPatcher.vsKeyEditAt
    rcases hpk : StructPatcher.parseKey
        ((StructPatcher.spanLines origLines i1 i2).getD j "") with _ | key
    · rfl
    · dsimp only
      by_cases hlk : (List.lookup key fields).isSome = true
      · rw [if_pos hlk, if_pos hlk]
        rfl
      · rw [if_neg hlk, if_neg hlk, insertsAt_single_insert, if_pos rfl]
        simp only [StructPatcher.vsIndent, StructPatcher.vsStructName,
          StructPatcher.vsName]
  · have hA : insertsAt (StructPatcher.vsPtrEdits origLines i1 i2) i2 = [] := by
      apply insertsAt_eq_nil_of_ne
      intro e he
      rw [vsPtrEdits_index origLines i1 i2 e he]
      omega
    have hB : insertsAt
        [Edit.insert i1 [StructPatcher.vsHLine origLines i1 i2 fields]] i2 =
        [] := by
      rw [insertsAt_single_insert, if_neg (by omega)]
    have hC : insertsAt (StructPatcher.vsKeyEdits origLines i1 i2 fields) i2 =
        [] := by
      apply insertsAt_eq_nil_of_ne
      intro e he
      unfold StructPatcher.vsKeyEdits at he
      rw [List.mem_flatMap] at he
      obtain ⟨p, hpmem, hee⟩ := he
      rw [vsKeyEditAt_index origLines i1 i2 fields p e hee]
      rw [List.mem_range'_1] at hpmem
      omega
    rw [insertsAt_append, insertsAt_append, insertsAt_append, hA, hB, hC,
      List.nil_append, List.nil_append, List.nil_append,
      insertsAt_vsNotUsedEdits_self]
    simp only [StructPatcher.vsNotUsed, StructPatcher.vsIndent]

theorem c4_struct_full_validation_witness :
    ∃ es ds,
      StructPatcher.validate_struct hpColor colorLiteral5 0 4 = some (es, ds) ∧
      (∀ k, (insertsAt es k).filter isHLine =
        if k = 0 then
          [indentOf ((StructPatcher.spanLines colorLiteral5 0 4).getLastD "") ++
            "# H: " ++ joinSep ", "
              (([("r", "float"), ("g", "float"), ("b", "float"),
                ("a", "float")] : List (String × String)).map
                fun f => f.1 ++ ": " ++ f.2)]
        else []) ∧
      (∀ j, 2 ≤ j → j + 1 ≤ 4 - 0 →
        insertsAt es (0 + j) =
          match StructPatcher.parseKey
              ((StructPatcher.spanLines colorLiteral5 0 4).getD j "") with
          | none => []
          | some key =>
            if (List.lookup key
                ([("r", "float"), ("g", "float"), ("b", "float"),
                  ("a", "float")] : List (String × String))).isSome then []
            else
              [indentOf
                  ((StructPatcher.spanLines colorLiteral5 0 4).getLastD "") ++
                "# FIXME: unknown C struct field " ++
                stripChars (stripChars
                  (pyStrip ((StructPatcher.spanLines colorLiteral5 0 4).getD 1 ""))
                  [',', '"']) [' ', '*'] ++ "." ++ key]) ∧
      insertsAt es 4 =
        ([("r", "float"), ("g", "float"), ("b", "float"),
          ("a", "float")] : List (String × String)).filterMap fun f =>
          if (StructPatcher.spanKeys
              (StructPatcher.spanLines colorLiteral5 0 4)).contains f.1 then none
          else some
            (indentOf ((StructPatcher.spanLines colorLiteral5 0 4).getLastD "") ++
              "    # not used: " ++ f.1) :=
  c4_struct_full_validation hpColor colorLiteral5 0 4
    [("r", "float"), ("g", "float"), ("b", "float"), ("a", "float")]
    (by decide) (by decide) (by decide) rfl

/-! ## C9: abort behaviour of the struct-literal span scan -/

theorem charLoop_eq_charLoopT (hp : NativeSchema) (o : List String) (i : Nat) :
    ∀ (cs : List Char) (st : StructPatcher.State),
      StructPatcher.charLoop hp o i st cs =
        if ((StructPatcher.charLoopT hp o i st cs).2).isSome then none
        else some (StructPatcher.charLoopT hp o i st cs).1 := by
  intro cs
  induction cs with
  | nil =>
    intro st
    rfl
  | cons c rest ih =>
    intro st
    simp only [StructPatcher.charLoop, StructPatcher.charLoopT]
    by_cases hh : c = '#'
    · rw [if_pos hh, if_pos hh]
      rfl
    · rw [if_neg hh, if_neg hh]
      by_cases ho : c = '('
      · rw [if_pos ho, if_pos ho]
        exact ih _
      · rw [if_neg ho, if_neg ho]
        by_cases hcp : c = ')'
        · rw [if_pos hcp, if_pos hcp]
          by_cases hd : st.braceDepth - 1 < 0
          · rw [if_pos hd, if_pos hd]
            rfl
          · rw [if_neg hd, if_neg hd]
            by_cases hd0 : st.braceDepth - 1 = 0
            · rw [if_pos hd0, if_pos hd0]
              rcases hv : StructPatcher.validate_struct hp o st.lineIndex.toNat i
                with _ | r
              · rfl
              · rfl
            · rw [if_neg hd0, if_neg hd0]
              exact ih _
        · rw [if_neg hcp, if_neg hcp]
          exact ih _

theorem step_eq_stepT (hp : NativeSchema) (o : List String)
    (st : StructPatcher.State) (ev : Option StructPatcher.ScanEvent)
    (p : Nat × String) :
    StructPatcher.step hp o (if ev.isSome then none else some st) p =
      (if ((StructPatcher.stepT hp o (st, ev) p).2).isSome then none
       else some (StructPatcher.stepT hp o (st, ev) p).1) := by
  rcases ev with _ | ev
  · have hl : (if (none : Option StructPatcher.ScanEvent).isSome = true then
        (none : Option StructPatcher.State) else some st) = some st := rfl
    rw [hl]
    simp only [StructPatcher.step, StructPatcher.stepT]
    by_cases hc1 : (strContainsSub p.2 "new_struct_p(" ||
        strContainsSub p.2 "new_struct(") = true
    · rw [if_pos hc1, if_pos hc1]
      by_cases hc2 : pyStartsWith (pyLStrip p.2) "def " = true
      · rw [if_pos hc2, if_pos hc2]
        rfl
      · rw [if_neg hc2, if_neg hc2]
        by_cases hc3 : strContainsSub p.2 "_new_struct" = true
        · rw [if_pos hc3, if_pos hc3]
          rfl
        · rw [if_neg hc3, if_neg hc3]
          by_cases hc4 : (strContainsSub p.2 "new_struct_p()" ||
              strContainsSub p.2 "new_struct()") = true
          · rw [if_pos hc4, if_pos hc4]
            rfl
          · rw [if_neg hc4, if_neg hc4]
            rcases hf : strFindSub p.2 "new_struct" with _ | j
            · rfl
            · exact charLoop_eq_charLoopT hp o p.1 (p.2.data.drop j)
                { st with lineIndex := Int.ofNat p.1, braceDepth := 0 }
    · rw [if_neg hc1, if_neg hc1]
      by_cases hc5 : 0 ≤ st.lineIndex
      · rw [if_pos hc5, if_pos hc5]
        exact charLoop_eq_charLoopT hp o p.1 p.2.data st
      · rw [if_neg hc5, if_neg hc5]
        rfl
  · rfl

theorem scan_eq_scanT (hp : NativeSchema) (lines : List String) :
    StructPatcher.scan hp lines =
      if ((StructPatcher.scanT hp lines).2).isSome then none
      else some (StructPatcher.scanT hp lines).1 := by
  have hgen : ∀ (ps : List (Nat × String)) (st : StructPatcher.State)
      (ev : Option StructPatcher.ScanEvent),
      ps.foldl (StructPatcher.step hp lines)
        (if ev.isSome then none else some st) =
      (if ((ps.foldl (StructPatcher.stepT hp lines) (st, ev)).2).isSome then none
       else some (ps.foldl (StructPatcher.stepT hp lines) (st, ev)).1) := by
    intro ps
    induction ps with
    | nil =>
      intro st ev
      rfl
    | cons p t ih =>
      intro st ev
      rw [List.foldl_cons, List.foldl_cons, step_eq_stepT]
      have h2 := ih (StructPatcher.stepT hp lines (st, ev) p).1
        (StructPatcher.stepT hp lines (st, ev) p).2
      simpa using h2
  have h0 := hgen lines.enum StructPatcher.initState none
  simpa [StructPatcher.scan, StructPatcher.scanT] using h0

theorem validate_struct_none_iff (hp : NativeSchema) (o : List String)
    (i1 i2 : Nat) (h1 : i1 ≤ i2) (h2 : i2 < o.length) :
    StructPatcher.validate_struct hp o i1 i2 = none ↔ i2 = i1 + 1 := by
  have hL : (StructPatcher.spanLines o i1 i2).length = i2 + 1 - i1 := by
    simp only [StructPatcher.spanLines, List.length_take, List.length_drop]
    omega
  constructor
  · intro h
    simp only [StructPatcher.validate_struct] at h
    split at h
    · split at h <;> simp at h
    · split at h
      · simp at h
      · split at h
        · rename_i hq1 hq2 hq3
          omega
        · split at h <;> simp at h
  · intro h
    subst h
    simp only [StructPatcher.validate_struct]
    rw [if_neg (show ¬ (StructPatcher.spanLines o i1 (i1 + 1)).length = 1 by
        omega),
      if_neg ?hb, if_pos (show (StructPatcher.spanLines o i1 (i1 + 1)).length < 3 by
        omega)]
    case hb =>
      simp only [Bool.and_eq_true, decide_eq_true_eq]
      rintro ⟨h3, _⟩
      omega

/-- C9 (amended): a closing parenthesis that would drive the brace depth
below zero makes the character loop return the fatal failure immediately,
and an aborted scan never resumes; however, the scan completes exactly
when the instrumented scan records no fatal event, and freedom from
negative depth alone is not enough: the validator also aborts the scan on
any span of exactly two lines (in-range spans are rejected precisely when
they have two lines). -/
theorem c9_abort_characterization (hp : NativeSchema) (lines : List String) :
    (∀ (st : StructPatcher.State) (rest : List Char) (i : Nat),
      st.braceDepth - 1 < 0 →
        StructPatcher.charLoop hp lines i st (')' :: rest) = none) ∧
    (∀ p, StructPatcher.step hp lines none p = none) ∧
    (StructPatcher.scan hp lines =
      if ((StructPatcher.scanT hp lines).2).isSome then none
      else some (StructPatcher.scanT hp lines).1) ∧
    (∀ i1 i2 : Nat, i1 ≤ i2 → i2 < lines.length →
      (StructPatcher.validate_struct hp lines i1 i2 = none ↔ i2 = i1 + 1)) := by
  refine ⟨?_, ?_, scan_eq_scanT hp lines, ?_⟩
  · intro st rest i hd
    simp only [StructPatcher.charLoop]
    rw [if_neg (show ¬(')' = '#') by decide), if_neg (show ¬(')' = '(') by decide)]
    rw [if_pos trivial, if_pos hd]
  · intro p
    rfl
  · intro i1 i2 ha hb
    exact validate_struct_none_iff hp lines i1 i2 ha hb

/-- C9 counterexample: a recognized literal span whose parentheses are
balanced (the scan never reaches the negative-depth branch: the recorded
fatal event is the rejected span, not a negative depth), yet the pass does
not complete the scan. -/
theorem c9_balanced_span_scan_aborts :
    StructPatcher.scan hpColor ["x = new_struct(", "    \x22A\x22)"] = none ∧
    (StructPatcher.scanT hpColor ["x = new_struct(", "    \x22A\x22)"]).2 =
      some StructPatcher.ScanEvent.badSpan := by
  exact ⟨rfl, rfl⟩

theorem c9_abort_characterization_witness :
    StructPatcher.charLoop hpColor colorLiteral5 0 StructPatcher.initState
      [')'] = none ∧
    StructPatcher.step hpColor colorLiteral5 none (0, "x") = none ∧
    (StructPatcher.scan hpColor colorLiteral5 =
      if ((StructPatcher.scanT hpColor colorLiteral5).2).isSome then none
      else some (StructPatcher.scanT hpColor colorLiteral5).1) ∧
    (StructPatcher.validate_struct hpColor colorLiteral5 0 1 = none ↔
      1 = 0 + 1) :=
  ⟨(c9_abort_characterization hpColor colorLiteral5).1
      StructPatcher.initState [] 0 (by decide),
    (c9_abort_characterization hpColor colorLiteral5).2.1 (0, "x"),
    (c9_abort_characterization hpColor colorLiteral5).2.2.1,
    (c9_abort_characterization hpColor colorLiteral5).2.2.2 0 1 (by decide)
      (by decide)⟩

/-! ## C8: counter behaviour of the two passes -/

theorem charLoop_some_count (hp : NativeSchema) (o : List String) (i : Nat) :
    ∀ (cs : List Char) (st st' : StructPatcher.State),
      StructPatcher.charLoop hp o i st cs = some st' →
      (st'.count = st.count ∧ st'.edits = st.edits ∧ st'.diags = st.diags) ∨
      (∃ r, StructPatcher.validate_struct hp o st.lineIndex.toNat i = some r ∧
        st'.count = st.count + 1 ∧ st'.edits = st.edits ++ r.1 ∧
        st'.diags = st.diags ++ r.2) := by
  intro cs
  induction cs with
  | nil =>
    intro st st' h
    simp only [StructPatcher.charLoop] at h
    cases Option.some.inj h
    exact Or.inl ⟨rfl, rfl, rfl⟩
  | cons c rest ih =>
    intro st st' h
    simp only [StructPatcher.charLoop] at h
    by_cases hh : c = '#'
    · rw [if_pos hh] at h
      cases Option.some.inj h
      exact Or.inl ⟨rfl, rfl, rfl⟩
    · rw [if_neg hh] at h
      by_cases ho : c = '('
      · rw [if_pos ho] at h
        rcases ih { st with braceDepth := st.braceDepth + 1 } st' h with hc | ⟨r, hr, hc⟩
        · exact Or.inl hc
        · exact Or.inr ⟨r, hr, hc⟩
      · rw [if_neg ho] at h
        by_cases hcp : c = ')'
        · rw [if_pos hcp] at h
          by_cases hd : st.braceDepth - 1 < 0
          · rw [if_pos hd] at h
            simp at h
          · rw [if_neg hd] at h
            by_cases hd0 : st.braceDepth - 1 = 0
            · rw [if_pos hd0] at h
              rcases hv : StructPatcher.validate_struct hp o st.lineIndex.toNat i
                with _ | r
              · rw [hv] at h
                simp at h
              · rw [hv] at h
                dsimp only at h
                cases Option.some.inj h
                exact Or.inr ⟨r, rfl, rfl, rfl, rfl⟩
            · rw [if_neg hd0] at h
              rcases ih { st with braceDepth := st.braceDepth - 1 } st' h with
                hc | ⟨r, hr, hc⟩
              · exact Or.inl hc
              · exact Or.inr ⟨r, hr, hc⟩
        · rw [if_neg hcp] at h
          exact ih st st' h

theorem step_some_count (hp : NativeSchema) (o : List String)
    (st st' : StructPatcher.State) (p : Nat × String)
    (h : StructPatcher.step hp o (some st) p = some st') :
    (st'.count = st.count ∧ st'.edits = st.edits ∧ st'.diags = st.diags) ∨
    (∃ i1 r, StructPatcher.validate_struct hp o i1 p.1 = some r ∧
      st'.count = st.count + 1 ∧ st'.edits = st.edits ++ r.1 ∧
      st'.diags = st.diags ++ r.2) := by
  simp only [StructPatcher.step] at h
  by_cases hc1 : (strContainsSub p.2 "new_struct_p(" ||
      strContainsSub p.2 "new_struct(") = true
  · rw [if_pos hc1] at h
    by_cases hc2 : pyStartsWith (pyLStrip p.2) "def " = true
    · rw [if_pos hc2] at h
      cases Option.some.inj h
      exact Or.inl ⟨rfl, rfl, rfl⟩
    · rw [if_neg hc2] at h
      by_cases hc3 : strContainsSub p.2 "_new_struct" = true
      · rw [if_pos hc3] at h
        cases Option.some.inj h
        exact Or.inl ⟨rfl, rfl, rfl⟩
      · rw [if_neg hc3] at h
        by_cases hc4 : (strContainsSub p.2 "new_struct_p()" ||
            strContainsSub p.2 "new_struct()") = true
        · rw [if_pos hc4] at h
          cases Option.some.inj h
          exact Or.inl ⟨rfl, rfl, rfl⟩
        · rw [if_neg hc4] at h
          rcases hf : strFindSub p.2 "new_struct" with _ | j
          · rw [hf] at h
            dsimp only at h
            cases Option.some.inj h
            exact Or.inl ⟨rfl, rfl, rfl⟩
          · rw [hf] at h
            dsimp only at h
            rcases charLoop_some_count hp o p.1 (p.2.data.drop j)
              { st with lineIndex := Int.ofNat p.1, braceDepth := 0 } st' h with
              hc | ⟨r, hr, hc⟩
            · exact Or.inl hc
            · exact Or.inr ⟨p.1, r, hr, hc⟩
  · rw [if_neg hc1] at h
    by_cases hc5 : 0 ≤ st.lineIndex
    · rw [if_pos hc5] at h
      rcases charLoop_some_count hp o p.1 p.2.data st st' h with hc | ⟨r, hr, hc⟩
      · exact Or.inl hc
      · exact Or.inr ⟨st.lineIndex.toNat, r, hr, hc⟩
    · rw [if_neg hc5] at h
      cases Option.some.inj h
      exact Or.inl ⟨rfl, rfl, rfl⟩

theorem validate_struct_unknown (hp : NativeSchema) (o : List String)
    (i1 i2 : Nat) (hspan : i1 + 2 ≤ i2) (hdoc : i2 < o.length)
    (hfast : ¬(i2 = i1 + 2 ∧
      ((StructPatcher.spanLines o i1 i2).getD 1 "").data.contains '=' = true))
    (hnone : List.lookup (StructPatcher.vsStructName o i1 i2) hp.structs = none) :
    StructPatcher.validate_struct hp o i1 i2 =
      some (StructPatcher.vsPtrEdits o i1 i2 ++
        [Edit.insert i1 [StructPatcher.vsIndent o i1 i2 ++
          "# FIXME: unknown C struct " ++ StructPatcher.vsStructName o i1 i2]],
        ["ERROR: unknown C struct " ++ StructPatcher.vsStructName o i1 i2]) := by
  have hL : (StructPatcher.spanLines o i1 i2).length = i2 + 1 - i1 := by
    simp only [StructPatcher.spanLines, List.length_take, List.length_drop]
    omega
  have h1 : ¬ (StructPatcher.spanLines o i1 i2).length = 1 := by omega
  have h3 : ¬ (StructPatcher.spanLines o i1 i2).length < 3 := by omega
  have h2b : ¬((decide ((StructPatcher.spanLines o i1 i2).length = 3) &&
      ((StructPatcher.spanLines o i1 i2).getD 1 "").data.contains '=') = true) := by
    simp only [Bool.and_eq_true, decide_eq_true_eq]
    rintro ⟨hlen3, hcon⟩
    exact hfast ⟨by omega, hcon⟩
  simp only [StructPatcher.validate_struct]
  rw [if_neg h1, if_neg h2b, if_neg h3, hnone]

/-- C8 (amended): the call-site counter grows by the per-line count at
every step and finally equals the per-line total plus one per annotated
signature at the recorded use sites; a successful struct-pass step leaves
the counter unchanged or increments it by exactly one for a completed
validator call; and the validator completes (and is hence counted) even
when the struct name is missing from the native struct table. -/
theorem c8_counter_characterization (hp : NativeSchema) (lines : List String) :
    (∀ (st : FunctionPatcher.State) (p : Nat × String),
      (FunctionPatcher.step hp st p).count =
        st.count + FunctionPatcher.lineCount hp p.2) ∧
    ((FunctionPatcher.run hp lines).count =
      (lines.enum.map (fun p => FunctionPatcher.lineCount hp p.2)).sum +
      ((FunctionPatcher.scan hp lines).uses.map (fun u =>
        ((List.lookup u.1 (FunctionPatcher.scan hp lines).assigns).getD
          []).length)).sum) ∧
    (∀ (st st' : StructPatcher.State) (p : Nat × String),
      StructPatcher.step hp lines (some st) p = some st' →
      st'.count = st.count ∨
        ∃ i1 r, StructPatcher.validate_struct hp lines i1 p.1 = some r ∧
          st'.count = st.count + 1) ∧
    (∀ i1 i2 : Nat, i1 + 2 ≤ i2 → i2 < lines.length →
      ¬(i2 = i1 + 2 ∧
        ((StructPatcher.spanLines lines i1 i2).getD 1 "").data.contains '=' =
          true) →
      List.lookup (StructPatcher.vsStructName lines i1 i2) hp.structs = none →
      StructPatcher.validate_struct hp lines i1 i2 =
        some (StructPatcher.vsPtrEdits lines i1 i2 ++
          [Edit.insert i1 [StructPatcher.vsIndent lines i1 i2 ++
            "# FIXME: unknown C struct " ++
            StructPatcher.vsStructName lines i1 i2]],
          ["ERROR: unknown C struct " ++
            StructPatcher.vsStructName lines i1 i2])) := by
  refine ⟨?_, ?_, ?_, ?_⟩
  · intro st p
    exact FunctionPatcher.step_count hp st p
  · have hrun : (FunctionPatcher.run hp lines).count =
        (FunctionPatcher.finishLoop hp (FunctionPatcher.scan hp lines)
          (FunctionPatcher.scan hp lines).uses).count := rfl
    have hfin := (FunctionPatcher.finishLoop_decomp hp
      (FunctionPatcher.scan hp lines).uses (FunctionPatcher.scan hp lines)
      (FunctionPatcher.scan_uses_nodup hp lines)).2.2
    have hs2 : (FunctionPatcher.scan hp lines).count =
        (lines.enum.map (fun p => FunctionPatcher.lineCount hp p.2)).sum := by
      have h0 := FunctionPatcher.foldl_step_count hp lines.enum
        FunctionPatcher.initState
      simpa [FunctionPatcher.scan, FunctionPatcher.initState] using h0
    rw [hrun, hfin, hs2]
  · intro st st' p h
    rcases step_some_count hp lines st st' p h with hc | ⟨i1, r, hr, hc, _, _⟩
    · exact Or.inl hc.1
    · exact Or.inr ⟨i1, r, hr, hc⟩
  · intro i1 i2 ha hb hf hn
    exact validate_struct_unknown hp lines i1 i2 ha hb hf hn

/-- C8 counterexample: a run of the struct-literal pass over a single
span whose struct name is missing from the native struct table still
reports a validated-struct count of one, together with the
unknown-struct error for that very span. -/
theorem c8_missing_struct_counted :
    ∃ st, StructPatcher.run hpColor fooLiteral4 = some st ∧
      st.count = 1 ∧ "ERROR: unknown C struct WGPUFoo" ∈ st.diags := by
  refine ⟨_, rfl, rfl, ?_⟩
  decide

theorem c8_counter_characterization_witness :
    ((FunctionPatcher.step hpColor FunctionPatcher.initState
        (0, "    x = libf.wgpuFoo(a)")).count =
      FunctionPatcher.initState.count +
        FunctionPatcher.lineCount hpColor "    x = libf.wgpuFoo(a)") ∧
    ((FunctionPatcher.run hpColor fooLiteral4).count =
      (fooLiteral4.enum.map
        (fun p => FunctionPatcher.lineCount hpColor p.2)).sum +
      ((FunctionPatcher.scan hpColor fooLiteral4).uses.map (fun u =>
        ((List.lookup u.1 (FunctionPatcher.scan hpColor fooLiteral4).assigns).getD
          []).length)).sum) ∧
    (StructPatcher.initState.count = StructPatcher.initState.count ∨
      ∃ i1 r, StructPatcher.validate_struct hpColor fooLiteral4 i1 0 = some r ∧
        StructPatcher.initState.count = StructPatcher.initState.count + 1) ∧
    StructPatcher.validate_struct hpColor fooLiteral4 0 3 =
      some (StructPatcher.vsPtrEdits fooLiteral4 0 3 ++
        [Edit.insert 0 [StructPatcher.vsIndent fooLiteral4 0 3 ++
          "# FIXME: unknown C struct " ++
          StructPatcher.vsStructName fooLiteral4 0 3]],
        ["ERROR: unknown C struct " ++
          StructPatcher.vsStructName fooLiteral4 0 3]) :=
  ⟨(c8_counter_characterization hpColor fooLiteral4).1
      FunctionPatcher.initState (0, "    x = libf.wgpuFoo(a)"),
    (c8_counter_characterization hpColor fooLiteral4).2.1,
    (c8_counter_characterization hpColor fooLiteral4).2.2.1
      StructPatcher.initState StructPatcher.initState (0, "x") rfl,
    (c8_counter_characterization hpColor fooLiteral4).2.2.2 0 3 (by decide)
      (by decide) (by decide) rfl⟩

/-! ## C1: the generated enummap -/

theorem memberStep_foldl (name : String) (hpEnum : List (String × Int)) :
    ∀ (ms : List (String × String)) (acc : List (String × Int) × List String),
      ms.foldl (WriteMappings.memberStep name hpEnum) acc =
        ((WriteMappings.memberWrites name hpEnum ms).foldl
          (fun m w => odUpdate m w.1 w.2) acc.1,
         acc.2 ++ WriteMappings.memberDiags name hpEnum ms) := by
  intro ms
  induction ms with
  | nil =>
    intro acc
    simp [WriteMappings.memberWrites, WriteMappings.memberDiags]
  | cons kv t ih =>
    intro acc
    rw [List.foldl_cons, ih]
    rcases hl : List.lookup (WriteMappings.overrideMember name
        (WriteMappings.normMember kv.2)) hpEnum with _ | v
    · have hstep : WriteMappings.memberStep name hpEnum acc kv =
          (acc.1, acc.2 ++
            ["Enum field " ++ name ++ "." ++ kv.2 ++ " missing in wgpu.h"]) := by
        simp only [WriteMappings.memberStep]
        rw [hl]
      have hw : WriteMappings.memberWrites name hpEnum (kv :: t) =
          WriteMappings.memberWrites name hpEnum t := by
        unfold WriteMappings.memberWrites
        rw [List.filterMap_cons, hl]
        rfl
      have hd : WriteMappings.memberDiags name hpEnum (kv :: t) =
          ("Enum field " ++ name ++ "." ++ kv.2 ++ " missing in wgpu.h") ::
            WriteMappings.memberDiags name hpEnum t := by
        unfold WriteMappings.memberDiags
        rw [List.filterMap_cons, hl]
      rw [hstep, hw, hd]
      dsimp only
      simp [List.append_assoc]
    · have hstep : WriteMappings.memberStep name hpEnum acc kv =
          (odUpdate acc.1 (name ++ "." ++ kv.2) v, acc.2) := by
        simp only [WriteMappings.memberStep]
        rw [hl]
      have hw : WriteMappings.memberWrites name hpEnum (kv :: t) =
          (name ++ "." ++ kv.2, v) ::
            WriteMappings.memberWrites name hpEnum t := by
        unfold WriteMappings.memberWrites
        rw [List.filterMap_cons, hl]
        rfl
      have hd : WriteMappings.memberDiags name hpEnum (kv :: t) =
          WriteMappings.memberDiags name hpEnum t := by
        unfold WriteMappings.memberDiags
        rw [List.filterMap_cons, hl]
      rw [hstep, hw, hd]
      dsimp only
      rw [List.foldl_cons]

theorem enumStep_foldl (hp : NativeSchema) :
    ∀ (idl : IdlEnums) (acc : List (String × Int) × List String),
      idl.foldl (WriteMappings.enumStep hp) acc =
        ((WriteMappings.enumWrites idl hp).foldl
          (fun m w => odUpdate m w.1 w.2) acc.1,
         acc.2 ++ WriteMappings.enumDiags idl hp) := by
  intro idl
  induction idl with
  | nil =>
    intro acc
    simp [WriteMappings.enumWrites, WriteMappings.enumDiags]
  | cons ne t ih =>
    intro acc
    rw [List.foldl_cons]
    rcases hl : List.lookup (WriteMappings.resolveEnumName ne.1) hp.enums
      with _ | hpM
    · have hstep : WriteMappings.enumStep hp acc ne =
          (acc.1, acc.2 ++ ["Enum " ++ WriteMappings.resolveEnumName ne.1 ++
            " missing in wgpu.h"]) := by
        simp only [WriteMappings.enumStep]
        rw [hl]
      have hw : WriteMappings.enumWrites (ne :: t) hp =
          WriteMappings.enumWrites t hp := by
        unfold WriteMappings.enumWrites
        rw [List.flatMap_cons, hl]
        rfl
      have hd : WriteMappings.enumDiags (ne :: t) hp =
          ("Enum " ++ WriteMappings.resolveEnumName ne.1 ++
            " missing in wgpu.h") :: WriteMappings.enumDiags t hp := by
        unfold WriteMappings.enumDiags
        rw [List.flatMap_cons, hl]
        rfl
      rw [ih, hstep, hw, hd]
      dsimp only
      simp [List.append_assoc]
    · have hstep : WriteMappings.enumStep hp acc ne =
          ne.2.foldl (WriteMappings.memberStep ne.1
            (WriteMappings.lowerKeys hpM)) acc := by
        simp only [WriteMappings.enumStep]
        rw [hl]
      have hw : WriteMappings.enumWrites (ne :: t) hp =
          WriteMappings.memberWrites ne.1 (WriteMappings.lowerKeys hpM) ne.2 ++
            WriteMappings.enumWrites t hp := by
        unfold WriteMappings.enumWrites
        rw [List.flatMap_cons, hl]
      have hd : WriteMappings.enumDiags (ne :: t) hp =
          WriteMappings.memberDiags ne.1 (WriteMappings.lowerKeys hpM) ne.2 ++
            WriteMappings.enumDiags t hp := by
        unfold WriteMappings.enumDiags
        rw [List.flatMap_cons, hl]
      rw [hstep, ih, memberStep_foldl, hw, hd]
      dsimp only
      rw [List.foldl_append, List.append_assoc]

theorem enummap_decomp (idl : IdlEnums) (hp : NativeSchema) :
    WriteMappings.enummap idl hp =
      ((WriteMappings.enumWrites idl hp).foldl
        (fun m w => odUpdate m w.1 w.2) [],
       WriteMappings.enumDiags idl hp) := by
  have h := enumStep_foldl hp idl ([], [])
  simpa [WriteMappings.enummap] using h

theorem lookup_of_all_eq {α : Type} (k : String) (v : α) :
    ∀ (ws : List (String × α)), (∃ w ∈ ws, w.1 = k) →
      (∀ w ∈ ws, w.1 = k → w.2 = v) → List.lookup k ws = some v := by
  intro ws
  induction ws with
  | nil =>
    intro hex _
    simp at hex
  | cons w t ih =>
    intro hex hall
    obtain ⟨w1, w2⟩ := w
    by_cases hk : w1 = k
    · subst hk
      have hv2 : w2 = v := hall (w1, w2) (by simp) rfl
      subst hv2
      simp [List.lookup_cons]
    · have hb : (k == w1) = false := by
        simp [beq_iff_eq]
        exact fun hc => hk hc.symm
      simp only [List.lookup_cons, hb, cond_false]
      refine ih ?_ ?_
      · rcases hex with ⟨w', hw', hwk⟩
        rcases List.mem_cons.1 hw' with heq | hmem2
        · exfalso
          rw [heq] at hwk
          exact hk hwk
        · exact ⟨w', hmem2, hwk⟩
      · intro w' hw' hwk
        exact hall w' (List.mem_cons_of_mem _ hw') hwk

theorem lookup_none_of_forall {α : Type} (k : String) :
    ∀ (ws : List (String × α)), (∀ w ∈ ws, w.1 ≠ k) →
      List.lookup k ws = none := by
  intro ws
  induction ws with
  | nil =>
    intro _
    rfl
  | cons w t ih =>
    intro hall
    obtain ⟨w1, w2⟩ := w
    have h1 : w1 ≠ k := hall (w1, w2) (by simp)
    have hb : (k == w1) = false := by
      simp [beq_iff_eq]
      exact fun hc => h1 hc.symm
    simp only [List.lookup_cons, hb, cond_false]
    exact ih fun w' hw' => hall w' (List.mem_cons_of_mem _ hw')

theorem append_sep_inj {α : Type} (x : α) :
    ∀ (as cs bs ds : List α), x ∉ as → x ∉ cs →
      as ++ x :: bs = cs ++ x :: ds → as = cs ∧ bs = ds := by
  intro as
  induction as with
  | nil =>
    intro cs bs ds ha hc h
    cases cs with
    | nil =>
      rw [List.nil_append, List.nil_append] at h
      injection h with h1 h2
      exact ⟨rfl, h2⟩
    | cons c ct =>
      rw [List.nil_append, List.cons_append] at h
      injection h with h1 h2
      subst h1
      exact absurd (List.mem_cons_self _ _) hc
  | cons a at' ih =>
    intro cs bs ds ha hc h
    cases cs with
    | nil =>
      rw [List.cons_append, List.nil_append] at h
      injection h with h1 h2
      subst h1
      exact absurd (List.mem_cons_self _ _) ha
    | cons c ct =>
      rw [List.cons_append, List.cons_append] at h
      injection h with h1 h2
      subst h1
      have ha2 : x ∉ at' := fun hx => ha (List.mem_cons_of_mem _ hx)
      have hc2 : x ∉ ct := fun hx => hc (List.mem_cons_of_mem _ hx)
      obtain ⟨he, h3⟩ := ih ct bs ds ha2 hc2 h2
      exact ⟨by rw [he], h3⟩

theorem string_data_inj (s t : String) (h : s.data = t.data) : s = t := by
  cases s
  cases t
  exact congrArg String.mk h

theorem string_sep_inj (a b c d : String)
    (ha : '.' ∉ a.data) (hc : '.' ∉ c.data)
    (h : a ++ "." ++ b = c ++ "." ++ d) : a = c ∧ b = d := by
  have hd2 := congrArg String.data h
  rw [String.data_append, String.data_append, String.data_append,
    String.data_append] at hd2
  have hdot : ("." : String).data = ['.'] := rfl
  rw [hdot, List.append_assoc, List.append_assoc, List.singleton_append,
    List.singleton_append] at hd2
  obtain ⟨h1, h2⟩ := append_sep_inj '.' a.data c.data b.data d.data ha hc hd2
  exact ⟨string_data_inj a c h1, string_data_inj b d h2⟩

/-- C1: for an interface enum whose native counterpart exists, a member
whose normalized key is present in the (lower-cased) native member set
gets an enummap entry under `name.member` holding exactly the native
integer, and a member whose normalized key is absent gets a diagnostic
and no enummap entry.  (Enum names are assumed unique and dot-free, as
interface enum names are.) -/
theorem c1_enummap_member (idl : IdlEnums) (hp : NativeSchema)
    (hnodup : (idl.map Prod.fst).Nodup)
    (hdot : ∀ ne ∈ idl, '.' ∉ ne.1.data)
    (name : String) (members : List (String × String))
    (hmem : (name, members) ∈ idl)
    (hpMembers : List (String × Int))
    (hhp : List.lookup (WriteMappings.resolveEnumName name) hp.enums =
      some hpMembers)
    (kv : String × String) (hkv : kv ∈ members) :
    (∀ v : Int,
      List.lookup (WriteMappings.overrideMember name
        (WriteMappings.normMember kv.2))
        (WriteMappings.lowerKeys hpMembers) = some v →
      List.lookup (name ++ "." ++ kv.2)
        (WriteMappings.enummap idl hp).1 = some v) ∧
    (List.lookup (WriteMappings.overrideMember name
        (WriteMappings.normMember kv.2))
        (WriteMappings.lowerKeys hpMembers) = none →
      List.lookup (name ++ "." ++ kv.2)
        (WriteMappings.enummap idl hp).1 = none ∧
      ("Enum field " ++ name ++ "." ++ kv.2 ++ " missing in wgpu.h") ∈
        (WriteMappings.enummap idl hp).2) := by
  have hdotname : '.' ∉ name.data := hdot (name, members) hmem
  have hkey : ∀ w ∈ WriteMappings.enumWrites idl hp,
      w.1 = name ++ "." ++ kv.2 →
      List.lookup (WriteMappings.overrideMember name
        (WriteMappings.normMember kv.2))
        (WriteMappings.lowerKeys hpMembers) = some w.2 := by
    intro w hw hwk
    obtain ⟨ne, hne, hwne⟩ := List.mem_flatMap.mp hw
    rcases hl : List.lookup (WriteMappings.resolveEnumName ne.1) hp.enums
      with _ | hpM
    · rw [hl] at hwne
      simp at hwne
    · rw [hl] at hwne
      dsimp only at hwne
      obtain ⟨kv2, hkv2, hkvw⟩ := List.mem_filterMap.mp hwne
      rcases hl2 : List.lookup (WriteMappings.overrideMember ne.1
          (WriteMappings.normMember kv2.2))
          (WriteMappings.lowerKeys hpM) with _ | v2
      · rw [hl2] at hkvw
        simp at hkvw
      · rw [hl2] at hkvw
        dsimp only [Option.map] at hkvw
        have hw2 := Option.some.inj hkvw
        subst hw2
        dsimp only at hwk
        obtain ⟨hn1, hn2⟩ := string_sep_inj ne.1 kv2.2 name kv.2
          (hdot ne hne) hdotname hwk
        have hlne : List.lookup ne.1 idl = some ne.2 :=
          lookup_eq_of_mem_nodup idl ne.1 ne.2 hnodup hne
        have hlname : List.lookup name idl = some members :=
          lookup_eq_of_mem_nodup idl name members hnodup hmem
        rw [hn1] at hlne hl
        have hpm : hpM = hpMembers := Option.some.inj (hl.symm.trans hhp)
        rw [hn2, hpm] at hl2
        dsimp only
        exact hl2
  constructor
  · intro v hv
    rw [enummap_decomp]
    dsimp only
    rw [lookup_foldl_odUpdate]
    have hrev : List.lookup (name ++ "." ++ kv.2)
        (WriteMappings.enumWrites idl hp).reverse = some v := by
      apply lookup_of_all_eq
      · refine ⟨(name ++ "." ++ kv.2, v), ?_, rfl⟩
        rw [List.mem_reverse]
        apply List.mem_flatMap.mpr
        refine ⟨(name, members), hmem, ?_⟩
        dsimp only
        rw [hhp]
        apply List.mem_filterMap.mpr
        refine ⟨kv, hkv, ?_⟩
        rw [hv]
        rfl
      · intro w hw hwk
        rw [List.mem_reverse] at hw
        exact Option.some.inj ((hkey w hw hwk).symm.trans hv)
    rw [hrev]
  · intro habs
    rw [enummap_decomp]
    dsimp only
    constructor
    · rw [lookup_foldl_odUpdate]
      have hrev : List.lookup (name ++ "." ++ kv.2)
          (WriteMappings.enumWrites idl hp).reverse = none := by
        apply lookup_none_of_forall
        intro w hw
        rw [List.mem_reverse] at hw
        intro hwk
        have h2 := hkey w hw hwk
        rw [habs] at h2
        exact Option.noConfusion h2
      rw [hrev]
      rfl
    · apply List.mem_flatMap.mpr
      refine ⟨(name, members), hmem, ?_⟩
      dsimp only
      rw [hhp]
      apply List.mem_filterMap.mpr
      refine ⟨kv, hkv, ?_⟩
      rw [habs]

theorem c1_enummap_member_witness :
    List.lookup ("PowerPreference" ++ "." ++ "low-power")
      (WriteMappings.enummap idlPower hpPower).1 = some 1 ∧
    List.lookup ("PowerPreference" ++ "." ++ "mystery")
      (WriteMappings.enummap idlPower hpPower).1 = none ∧
    ("Enum field " ++ "PowerPreference" ++ "." ++ "mystery" ++
      " missing in wgpu.h") ∈ (WriteMappings.enummap idlPower hpPower).2 :=
  ⟨(c1_enummap_member idlPower hpPower (by decide) (by decide)
      "PowerPreference"
      [("low-power", "low-power"), ("high-performance", "high-performance"),
       ("mystery", "mystery")]
      (by decide) [("Undefined", 0), ("LowPower", 1), ("HighPerformance", 2)]
      rfl ("low-power", "low-power") (by decide)).1 1 rfl,
    ((c1_enummap_member idlPower hpPower (by decide) (by decide)
      "PowerPreference"
      [("low-power", "low-power"), ("high-performance", "high-performance"),
       ("mystery", "mystery")]
      (by decide) [("Undefined", 0), ("LowPower", 1), ("HighPerformance", 2)]
      rfl ("mystery", "mystery") (by decide)).2 rfl).1,
    ((c1_enummap_member idlPower hpPower (by decide) (by decide)
      "PowerPreference"
      [("low-power", "low-power"), ("high-performance", "high-performance"),
       ("mystery", "mystery")]
      (by decide) [("Undefined", 0), ("LowPower", 1), ("HighPerformance", 2)]
      rfl ("mystery", "mystery") (by decide)).2 rfl).2⟩

/-! ## C6: re-running the struct-literal pass on its own output -/

theorem string_mk_data (s : String) : String.mk s.data = s := by
  cases s
  rfl

end WgpuPatch
